import Mathlib

/-!
Shallow embedding of the notes-tree module of Cherry Studio
(`src/renderer/src/services/NotesService.ts` and the external-workspace
service bundled in
`src/renderer/src/components/RichEditor/extensions/enhanced-link.ts`),
together with proofs about the properties the specification claims.

Modelling conventions, shared by all definitions below:

* A `NotesTreeNode` is a record of scalar fields (`NodeData`) plus a list of
  children.  In the TypeScript source `children` is an optional array; every
  embedded operation treats a missing `children` and an empty array
  identically (each source function guards with `node.children &&
  node.children.length > 0`, or creates the array just before pushing), so
  the embedding uses a plain `List` with `[]` standing for both.

* JavaScript truthiness tests on optional strings (`node.fileId`,
  `parentId`) are embedded by `jsTruthyStr`, which is false for a missing
  value and for the empty string.

* `Boolean` negation on a possibly-`undefined` flag (`!node.expanded`,
  `!node.is_starred`) is embedded by `jsNegate` (JS: `!undefined = true`).

* `new Date().toISOString()` is passed in as an explicit `now : String`
  argument.  `new Date(s).getTime()` and
  `a.localeCompare(b, undefined, { sensitivity: 'accent' })` are opaque
  host functions and are passed in as explicit parameters
  (`parseTime : String → Int`, `lc : String → String → Int`).

* Database / IPC calls are modelled by explicit inputs and outputs: the
  persisted tree record is an argument, the file-metadata store is a
  function `String → Option FileMeta`, and "persist the tree" is modelled
  by returning the tree that would be written (or `none` when the source
  does not call the save).

* The source mutates node objects in place through live references; the
  embedding instead rebuilds the forest, updating the first node (in the
  depth-first, node-before-children-before-siblings order used by
  `findNodeInTree`) with the given id, which coincides with the source's
  reference mutation on id-unique trees.
-/

/-- `node.type` in the TypeScript source: `'folder' | 'file'`. -/
inductive NodeType where
  | folder : NodeType
  | file : NodeType
deriving Repr, DecidableEq

/-- Scalar fields of a `NotesTreeNode` (`src/renderer/src/types/note.ts`). -/
structure NodeData where
  id : String
  name : String
  type : NodeType
  treePath : Option String
  is_starred : Option Bool
  expanded : Option Bool
  fileId : Option String
  createdAt : Option String
  updatedAt : Option String
deriving Repr, DecidableEq

/-- A notes-tree node: scalar data plus the (possibly empty) children list. -/
inductive NotesTreeNode where
  | node (data : NodeData) (children : List NotesTreeNode) : NotesTreeNode
deriving Repr

/-- Scalar data of a node. -/
def NotesTreeNode.data : NotesTreeNode → NodeData
  | .node d _ => d

/-- Children list of a node. -/
def NotesTreeNode.children : NotesTreeNode → List NotesTreeNode
  | .node _ c => c

/-- Replace the children list of a node. -/
def NotesTreeNode.withChildren : NotesTreeNode → List NotesTreeNode → NotesTreeNode
  | .node d _, c => .node d c

mutual

/-- Decidable equality of nodes (the automatic derivation does not handle
the nesting through `List`). -/
def nodeDecEq : (a b : NotesTreeNode) → Decidable (a = b)
  | .node d c, .node d' c' =>
    match decEq d d' with
    | Decidable.isFalse h =>
      Decidable.isFalse (by intro he; injection he; contradiction)
    | Decidable.isTrue hd =>
      match listNodeDecEq c c' with
      | Decidable.isFalse h =>
        Decidable.isFalse (by intro he; injection he; contradiction)
      | Decidable.isTrue hc => Decidable.isTrue (by rw [hd, hc])

/-- Decidable equality of forests. -/
def listNodeDecEq : (a b : List NotesTreeNode) → Decidable (a = b)
  | [], [] => Decidable.isTrue rfl
  | [], _ :: _ => Decidable.isFalse (by intro h; injection h)
  | _ :: _, [] => Decidable.isFalse (by intro h; injection h)
  | x :: xs, y :: ys =>
    match nodeDecEq x y, listNodeDecEq xs ys with
    | Decidable.isTrue h1, Decidable.isTrue h2 => Decidable.isTrue (by rw [h1, h2])
    | Decidable.isFalse h1, _ =>
      Decidable.isFalse (by intro he; injection he; contradiction)
    | _, Decidable.isFalse h2 =>
      Decidable.isFalse (by intro he; injection he; contradiction)

end

instance : DecidableEq NotesTreeNode := nodeDecEq

/-- JavaScript truthiness of an optional string (`undefined` and `''` are
falsy). -/
def jsTruthyStr : Option String → Bool
  | none => false
  | some s => s ≠ ""

/-- JavaScript `!` applied to a possibly-`undefined` boolean flag
(`!undefined = true`). -/
def jsNegate : Option Bool → Bool
  | none => true
  | some b => !b

/-- `String.prototype.toLowerCase()`, embedded over the character list
(simple Unicode lowercasing per `Char.toLower`). -/
def jsToLower (s : String) : String := String.mk (s.data.map Char.toLower)

/-- `String.prototype.endsWith(post)`, embedded over character lists. -/
def jsEndsWith (s post : String) : Bool := post.data.isSuffixOf s.data

/-- `findNodeInTree` from `NotesService.ts`: depth-first search, checking a
node before its children and its children before its later siblings. -/
def findNodeInTree : List NotesTreeNode → String → Option NotesTreeNode
  | [], _ => none
  | .node d c :: rest, nodeId =>
    if d.id = nodeId then some (.node d c)
    else
      match findNodeInTree c nodeId with
      | some found => some found
      | none => findNodeInTree rest nodeId

/-- `findParentNode` from `NotesService.ts`: returns the first node (in the
same depth-first order) that has a direct child with the given id. -/
def findParentNode : List NotesTreeNode → String → Option NotesTreeNode
  | [], _ => none
  | .node d c :: rest, targetNodeId =>
    if c.any (fun child => child.data.id = targetNodeId) then some (.node d c)
    else
      match findParentNode c targetNodeId with
      | some p => some p
      | none => findParentNode rest targetNodeId

/-- Apply `f` to the first node (in `findNodeInTree` order) whose id is
`nodeId`; embeds the source's in-place mutation of the object returned by
`findNodeInTree`.  Also returns whether a node was found. -/
def updateFirstNode (f : NotesTreeNode → NotesTreeNode) :
    List NotesTreeNode → String → List NotesTreeNode × Bool
  | [], _ => ([], false)
  | .node d c :: rest, nodeId =>
    if d.id = nodeId then (f (.node d c) :: rest, true)
    else
      match updateFirstNode f c nodeId with
      | (c', true) => (.node d c' :: rest, true)
      | (_, false) =>
        let r := updateFirstNode f rest nodeId
        (.node d c :: r.1, r.2)

/-- `removeNodeFromTree` from `NotesService.ts`: splice out the first node
with the given id (node checked before its children, children before later
siblings); returns whether a removal occurred. -/
def removeNodeFromTree : List NotesTreeNode → String → List NotesTreeNode × Bool
  | [], _ => ([], false)
  | .node d c :: rest, nodeId =>
    if d.id = nodeId then (rest, true)
    else
      match removeNodeFromTree c nodeId with
      | (c', true) => (.node d c' :: rest, true)
      | (_, false) =>
        let r := removeNodeFromTree rest nodeId
        (.node d c :: r.1, r.2)

/-- `insertNodeIntoTree` from `NotesService.ts`: push at top level when
`parentId` is absent (or `''`, which is falsy in JS); otherwise push into
the children of the resolved parent only when it is a folder, and do
nothing at all when the parent does not resolve or is a file. -/
def insertNodeIntoTree (tree : List NotesTreeNode) (n : NotesTreeNode)
    (parentId : Option String) : List NotesTreeNode :=
  match parentId with
  | none => tree ++ [n]
  | some pid =>
    if pid = "" then tree ++ [n]
    else
      match findNodeInTree tree pid with
      | some parent =>
        if parent.data.type = NodeType.folder then
          (updateFirstNode (fun p => p.withChildren (p.children ++ [n])) tree pid).1
        else tree
      | none => tree

/-- Total number of nodes in a forest. -/
def nodeCount : List NotesTreeNode → Nat
  | [] => 0
  | .node _ c :: rest => 1 + nodeCount c + nodeCount rest

/-- Recursion core of `isParentNode` from `NotesService.ts`.  The source
recursion re-looks-up each child id in the whole tree and terminates
because node ids are unique; the embedding bounds the recursion depth by an
explicit `fuel`, initialised to the node count of the tree, which dominates
every chain of child steps on an id-unique tree. -/
def isParentNodeFuel (tree : List NotesTreeNode) :
    Nat → String → String → Bool
  | 0, _, _ => false
  | fuel + 1, parentId, childId =>
    match findNodeInTree tree childId with
    | none => false
    | some _ =>
      match findNodeInTree tree parentId with
      | none => false
      | some parentNode =>
        if parentNode.data.type = NodeType.folder then
          if parentNode.children.any (fun child => child.data.id = childId) then
            true
          else
            parentNode.children.any
              (fun child => isParentNodeFuel tree fuel child.data.id childId)
        else false

/-- `isParentNode` from `NotesService.ts`: whether the node found under
`parentId` is a strict ancestor of the node found under `childId`. -/
def isParentNode (tree : List NotesTreeNode) (parentId childId : String) : Bool :=
  isParentNodeFuel tree (nodeCount tree) parentId childId

/-- Markdown extension constant from the source. -/
def MARKDOWN_EXT : String := ".md"

/-- `getNodePath` from `NotesService.ts`.  With a truthy `parentId` the
source interpolates the `Promise` returned by `buildNodePath` directly
into a template string; JavaScript stringifies a pending promise as
`[object Promise]`, so the produced path is `[object Promise]/<name>`. -/
def getNodePath (name : String) (parentId : Option String) : String :=
  if jsTruthyStr parentId then "[object Promise]/" ++ name
  else "/" ++ name

/-- The `position` argument of `sortNodes` / `moveNode`. -/
inductive MovePosition where
  | before : MovePosition
  | after : MovePosition
  | inside : MovePosition
deriving Repr, DecidableEq

/-- Insert at an index, as `Array.prototype.splice(i, 0, x)`. -/
def insertAt : List NotesTreeNode → Nat → NotesTreeNode → List NotesTreeNode
  | l, 0, x => x :: l
  | [], _ + 1, x => [x]
  | y :: l, i + 1, x => y :: insertAt l i x

/-- `sortNodes` from `NotesService.ts` (the position-based move used by
drag-and-drop), as a pure function from the loaded tree to the returned
boolean and the tree as persisted after the call (the input tree itself
when the source returns without calling `saveNotesTree`).

The source mutates the live `sourceNode` / `targetNode` objects: the moved
node carries the `treePath` / `updatedAt` updates because they hit the
same object that was pushed or spliced in.  When `position = 'inside'` and
the target object is no longer in the tree after the removal (which
happens exactly when the target was inside the removed subtree, e.g. a
self-move), the push mutates a detached object, so the persisted tree is
just the tree after removal — yet the source still saves and returns
`true`. -/
def sortNodes (tree : List NotesTreeNode) (sourceNodeId targetNodeId : String)
    (position : MovePosition) (now : String) : Bool × List NotesTreeNode :=
  match findNodeInTree tree sourceNodeId, findNodeInTree tree targetNodeId with
  | some sourceNode, some targetNode =>
    if position = .inside ∧ targetNode.data.type = .file ∧
        sourceNode.data.type = .folder then
      (false, tree)
    else if position = .inside ∧ isParentNode tree sourceNodeId targetNodeId then
      (false, tree)
    else
      let tree1 := (removeNodeFromTree tree sourceNodeId).1
      if position = .inside ∧ targetNode.data.type = .folder then
        let d := sourceNode.data
        let d1 :=
          if d.type = .file then
            { d with treePath := some (getNodePath d.name (some targetNode.data.id)) }
          else d
        let moved := NotesTreeNode.node { d1 with updatedAt := some now }
          sourceNode.children
        let att := updateFirstNode
          (fun t => .node { t.data with expanded := some true }
            (t.children ++ [moved])) tree1 targetNodeId
        (true, att.1)
      else
        match findParentNode tree1 targetNodeId with
        | some targetParent =>
          match targetParent.children.findIdx? (fun n => n.data.id = targetNodeId) with
          | none => (false, tree)
          | some i =>
            let insertIndex := if position = .before then i else i + 1
            let d := sourceNode.data
            let newPath := some (getNodePath d.name (some targetParent.data.id))
            let d1 := if d.type = .file then { d with treePath := newPath } else d
            let moved := NotesTreeNode.node { d1 with updatedAt := some now }
              sourceNode.children
            (true, (updateFirstNode
              (fun p => p.withChildren (insertAt p.children insertIndex moved))
              tree1 targetParent.data.id).1)
        | none =>
          match tree1.findIdx? (fun n => n.data.id = targetNodeId) with
          | none => (false, tree)
          | some i =>
            let insertIndex := if position = .before then i else i + 1
            let d := sourceNode.data
            let d1 :=
              if d.type = .file then
                { d with treePath := some (getNodePath d.name none) }
              else d
            let moved := NotesTreeNode.node { d1 with updatedAt := some now }
              sourceNode.children
            (true, insertAt tree1 insertIndex moved)
  | _, _ => (false, tree)

/-- The part of a `FileMetadata` record
(`src/renderer/src/types`) that the notes-tree reconciliation reads. -/
structure FileMeta where
  id : String
  origin_name : String
deriving Repr, DecidableEq

/-- `collectFileIds` from `NotesService.ts`: the `fileId`s of all file
nodes with a truthy `fileId`, in depth-first order. -/
def collectFileIds : List NotesTreeNode → List String
  | [] => []
  | .node d c :: rest =>
    (match d.fileId with
     | some fid => if d.type = .file ∧ fid ≠ "" then [fid] else []
     | none => []) ++ collectFileIds c ++ collectFileIds rest

/-- The JS `Map` that `syncFile` builds from `validFiles`, keyed by each
metadata record's own `id` field; later entries overwrite earlier ones,
hence the lookup scans the reversed list. -/
def metadataFind (validFiles : List FileMeta) (i : String) : Option FileMeta :=
  validFiles.reverse.find? (fun m => m.id = i)

/-- Per-node body of `updateFileNames`: for a file node with a truthy
`fileId` whose metadata record exists and carries a different
`origin_name`, set `name` to the stored name and bump `updatedAt`;
returns the (possibly updated) data and whether it changed. -/
def updateFileNameData (mf : String → Option FileMeta) (now : String)
    (d : NodeData) : NodeData × Bool :=
  match d.fileId with
  | some fid =>
    if d.type = .file ∧ fid ≠ "" then
      match mf fid with
      | some m =>
        if m.origin_name ≠ d.name then
          ({ d with name := m.origin_name, updatedAt := some now }, true)
        else (d, false)
      | none => (d, false)
    else (d, false)
  | none => (d, false)

/-- `updateFileNames` from `NotesService.ts`: apply `updateFileNameData`
to every node, recursing into children; returns the rebuilt forest and
the `hasChanges` flag. -/
def updateFileNames (mf : String → Option FileMeta) (now : String) :
    List NotesTreeNode → List NotesTreeNode × Bool
  | [] => ([], false)
  | .node d c :: rest =>
    let upd := updateFileNameData mf now d
    let rc := updateFileNames mf now c
    let rr := updateFileNames mf now rest
    (.node upd.1 rc.1 :: rr.1, upd.2 || rc.2 || rr.2)

/-- `removeDeletedFiles` from `NotesService.ts`: drop every file node with
a truthy `fileId` listed in `deletedFileIds` (the source iterates the
array backwards with `splice`; elementwise the result is the same) and
recurse into the children of every kept node; returns the forest and the
`hasChanges` flag. -/
def removeDeletedFiles (deletedFileIds : List String) :
    List NotesTreeNode → List NotesTreeNode × Bool
  | [] => ([], false)
  | .node d c :: rest =>
    let rr := removeDeletedFiles deletedFileIds rest
    if d.type = .file ∧ jsTruthyStr d.fileId ∧
        deletedFileIds.contains (d.fileId.getD "") then
      (rr.1, true)
    else
      let rc := removeDeletedFiles deletedFileIds c
      (.node d rc.1 :: rr.1, rc.2 || rr.2)

/-- `syncFile` from `NotesService.ts`, as a pure function from the loaded
tree and the file-metadata store (`FileManager.getFile`) to the reconciled
tree together with the tree that is persisted (`none` when the source does
not call `saveNotesTree`). -/
def syncFile (store : String → Option FileMeta) (now : String)
    (tree : List NotesTreeNode) :
    List NotesTreeNode × Option (List NotesTreeNode) :=
  let fileIds := collectFileIds tree
  if fileIds = [] then (tree, none)
  else
    let validFiles := fileIds.filterMap store
    let mf := metadataFind validFiles
    let deletedFileIds := fileIds.filter (fun i => (mf i).isNone)
    let r1 := updateFileNames mf now tree
    let r2 :=
      if deletedFileIds ≠ [] then removeDeletedFiles deletedFileIds r1.1
      else (r1.1, false)
    (r2.1, if r1.2 || r2.2 then some r2.1 else none)

/-- `getNotesTree` from `NotesService.ts`: read the persisted record
(`Except.error` for a rejected read), default a missing record to the
empty forest, reconcile with `syncFile`; on a read failure log and return
the empty forest.  The result pairs the returned tree with the tree
persisted by the reconciliation (`none` when nothing is written). -/
def getNotesTree (record : Except Unit (Option (List NotesTreeNode)))
    (store : String → Option FileMeta) (now : String) :
    List NotesTreeNode × Option (List NotesTreeNode) :=
  match record with
  | .error _ => ([], none)
  | .ok r => syncFile store now (r.getD [])

/-- `renameNode` from `NotesService.ts` (internal-file variant), as a pure
function on the loaded tree.  `Except.error` embeds the thrown
`Node not found`; on success the result pairs the persisted tree with the
metadata-record update performed for file nodes — `(fileId, new
origin_name)`, or `none` when no record is written (non-file node, falsy
`fileId`, or no stored metadata).  The source updates `name` (appending
the markdown extension for file nodes whose new name lacks it,
case-insensitively) and `updatedAt`, and touches no other field. -/
def renameNode (tree : List NotesTreeNode) (nodeId newName now : String)
    (store : String → Option FileMeta) :
    Except Unit (List NotesTreeNode × Option (String × String)) :=
  match findNodeInTree tree nodeId with
  | none => .error ()
  | some n =>
    let finalName :=
      if n.data.type = .file ∧ ¬(jsEndsWith (jsToLower newName) MARKDOWN_EXT) then
        newName ++ MARKDOWN_EXT
      else newName
    let tree1 := (updateFirstNode
      (fun t => .node { t.data with name := finalName, updatedAt := some now }
        t.children) tree nodeId).1
    let metaUpdate :=
      if n.data.type = .file ∧ jsTruthyStr n.data.fileId then
        match store (n.data.fileId.getD "") with
        | some _ => some (n.data.fileId.getD "", finalName)
        | none => none
      else none
    .ok (tree1, metaUpdate)

/-- `toggleNodeExpanded` from `NotesService.ts`: flip `expanded` on the
resolved node only when it is a folder; the result pairs the tree with
whether `saveNotesTree` was called. -/
def toggleNodeExpanded (tree : List NotesTreeNode) (nodeId : String) :
    List NotesTreeNode × Bool :=
  match findNodeInTree tree nodeId with
  | some n =>
    if n.data.type = .folder then
      ((updateFirstNode
        (fun t => .node { t.data with expanded := some (jsNegate t.data.expanded) }
          t.children) tree nodeId).1, true)
    else (tree, false)
  | none => (tree, false)

/-- `toggleStarred` from `NotesService.ts`: flip `is_starred` on the
resolved node — the source guards only with `if (node)`, with no
node-type check; the result pairs the tree with whether `saveNotesTree`
was called. -/
def toggleStarred (tree : List NotesTreeNode) (nodeId : String) :
    List NotesTreeNode × Bool :=
  match findNodeInTree tree nodeId with
  | some _ =>
    ((updateFirstNode
      (fun t => .node { t.data with is_starred := some (jsNegate t.data.is_starred) }
        t.children) tree nodeId).1, true)
  | none => (tree, false)

/-- `createFolder` from `NotesService.ts`, from the tree returned by
`getNotesTree`: build the folder node (fresh uuid and timestamp passed
explicitly), insert it with `insertNodeIntoTree`, and return it together
with the tree handed to `saveNotesTree`. -/
def createFolder (tree : List NotesTreeNode) (folderId name now : String)
    (parentId : Option String) : NotesTreeNode × List NotesTreeNode :=
  let folder : NotesTreeNode := .node
    { id := folderId, name := name, type := .folder, treePath := none,
      is_starred := none, expanded := some true, fileId := none,
      createdAt := some now, updatedAt := some now } []
  (folder, insertNodeIntoTree tree folder parentId)

/-- `createNote` from `NotesService.ts`, from the tree returned by
`getNotesTree`: derive the display name (auto-append the markdown
extension), build the file node with `treePath` from `getNodePath` and
`fileId := noteId`, insert it with `insertNodeIntoTree`, and return it
together with the tree handed to `saveNotesTree`.  The backing-file write
and the metadata insert touch other stores and not the tree. -/
def createNote (tree : List NotesTreeNode) (noteId name now : String)
    (parentId : Option String) : NotesTreeNode × List NotesTreeNode :=
  let displayName :=
    if ¬(jsEndsWith (jsToLower name) MARKDOWN_EXT) then name ++ MARKDOWN_EXT
    else name
  let note : NotesTreeNode := .node
    { id := noteId, name := displayName, type := .file,
      treePath := some (getNodePath displayName parentId),
      is_starred := none, expanded := none, fileId := some noteId,
      createdAt := some now, updatedAt := some now } []
  (note, insertNodeIntoTree tree note parentId)

/-- `NotesSortType` from `src/renderer/src/types/note.ts`. -/
inductive NotesSortType where
  | sort_a2z : NotesSortType
  | sort_z2a : NotesSortType
  | sort_updated_desc : NotesSortType
  | sort_updated_asc : NotesSortType
  | sort_created_desc : NotesSortType
  | sort_created_asc : NotesSortType
deriving Repr, DecidableEq

/-- Timestamp key of the time-based comparators in `getSortFunction`:
`x ? new Date(x).getTime() : 0` — a falsy (absent or empty) timestamp
yields epoch zero; the host date parser is the explicit `parseTime`. -/
def jsTimeKey (parseTime : String → Int) : Option String → Int
  | none => 0
  | some s => if s = "" then 0 else parseTime s

/-- `getSortFunction` from `enhanced-link.ts`: the comparator for each sort
type.  `lc a b` stands for
`a.localeCompare(b, undefined, { sensitivity: 'accent' })`. -/
def getSortFunction (lc : String → String → Int) (parseTime : String → Int) :
    NotesSortType → NotesTreeNode → NotesTreeNode → Int
  | .sort_a2z => fun a b => lc a.data.name b.data.name
  | .sort_z2a => fun a b => lc b.data.name a.data.name
  | .sort_updated_desc => fun a b =>
      jsTimeKey parseTime b.data.updatedAt - jsTimeKey parseTime a.data.updatedAt
  | .sort_updated_asc => fun a b =>
      jsTimeKey parseTime a.data.updatedAt - jsTimeKey parseTime b.data.updatedAt
  | .sort_created_desc => fun a b =>
      jsTimeKey parseTime b.data.createdAt - jsTimeKey parseTime a.data.createdAt
  | .sort_created_asc => fun a b =>
      jsTimeKey parseTime a.data.createdAt - jsTimeKey parseTime b.data.createdAt

/-- `Array.prototype.sort` with a comparator, as observable for a
consistent comparator: a stable sort that places `a` no later than `b`
when `cmp a b ≤ 0` (ES2019 requires sort stability). -/
def jsSortBy (cmp : NotesTreeNode → NotesTreeNode → Int)
    (l : List NotesTreeNode) : List NotesTreeNode :=
  l.mergeSort (fun a b => cmp a b ≤ 0)

/-- `node.type === 'folder'`, the predicate of the folder filter. -/
def isFolderNode (n : NotesTreeNode) : Bool := n.data.type = NodeType.folder

/-- `node.type === 'file'`, the predicate of the file filter. -/
def isFileNode (n : NotesTreeNode) : Bool := n.data.type = NodeType.file

/-- `sortNodesArray` from `enhanced-link.ts`: split folders from files,
sort each group with the comparator for `sortType`, and refill the array
with the sorted folders followed by the sorted files. -/
def sortNodesArray (lc : String → String → Int) (parseTime : String → Int)
    (sortType : NotesSortType) (nodes : List NotesTreeNode) :
    List NotesTreeNode :=
  let folders := nodes.filter isFolderNode
  let files := nodes.filter isFileNode
  let sortFunction := getSortFunction lc parseTime sortType
  jsSortBy sortFunction folders ++ jsSortBy sortFunction files

/-- `recursiveSortNodes` from `enhanced-link.ts`, fused with the per-level
`sortNodesArray` calls: rebuild every folder node's non-empty children
list as its sorted version, recursively.  The source sorts a level first
and then descends into its (already sorted) children; the embedding sorts
the subtrees first and the level last, which produces the same forest
because every comparator reads only the scalar data of the compared
nodes, never their children, so sorting a list commutes with re-sorting
the subtrees of its elements. -/
def sortDeep (lc : String → String → Int) (parseTime : String → Int)
    (sortType : NotesSortType) : List NotesTreeNode → List NotesTreeNode
  | [] => []
  | .node d c :: rest =>
    let c' :=
      if d.type = NodeType.folder ∧ c.length > 0 then
        sortNodesArray lc parseTime sortType (sortDeep lc parseTime sortType c)
      else c
    .node d c' :: sortDeep lc parseTime sortType rest

/-- `sortAllLevels` from `enhanced-link.ts`: sort the top level with
`sortNodesArray` and every folder's children recursively with
`recursiveSortNodes`; the result is the tree written back to the
persisted record. -/
def sortAllLevels (lc : String → String → Int) (parseTime : String → Int)
    (sortType : NotesSortType) (tree : List NotesTreeNode) :
    List NotesTreeNode :=
  sortNodesArray lc parseTime sortType (sortDeep lc parseTime sortType tree)

/-- Every folder-type entry precedes every file-type entry: once a file
occurs, only files follow. -/
def foldersBeforeFiles : List NotesTreeNode → Bool
  | [] => true
  | n :: rest =>
    (if isFileNode n then rest.all isFileNode else true) && foldersBeforeFiles rest

/-- The list is ordered by the comparator: each adjacent pair compares
at most zero. -/
def orderedBy (cmp : NotesTreeNode → NotesTreeNode → Int) :
    List NotesTreeNode → Bool
  | [] => true
  | [_] => true
  | a :: b :: rest => (decide (cmp a b ≤ 0)) && orderedBy cmp (b :: rest)

/-- Both type-groups of a level, taken separately, are ordered by the
comparator. -/
def groupsOrderedBy (cmp : NotesTreeNode → NotesTreeNode → Int)
    (l : List NotesTreeNode) : Bool :=
  orderedBy cmp (l.filter isFolderNode) && orderedBy cmp (l.filter isFileNode)

/-- After any entry satisfying `q`, no entry satisfying `p` occurs. -/
def noneAfter (q p : NotesTreeNode → Bool) : List NotesTreeNode → Bool
  | [] => true
  | a :: rest =>
    (if q a then rest.all (fun b => !(p b)) else true) && noneAfter q p rest

/-- `p` holds for the children list of every node, recursively. -/
def allChildLevels (p : List NotesTreeNode → Bool) : List NotesTreeNode → Bool
  | [] => true
  | .node _ c :: rest => p c && allChildLevels p c && allChildLevels p rest

/-- `p` holds for the top level and for every node's children list. -/
def allLevels (p : List NotesTreeNode → Bool) (l : List NotesTreeNode) : Bool :=
  p l && allChildLevels p l

/-- Well-formedness from the data model (`children` is "present only on
folder nodes"): file nodes have no children, at every level. -/
def filesChildless : List NotesTreeNode → Bool
  | [] => true
  | .node d c :: rest =>
    (if d.type = NodeType.file then c.isEmpty else true) &&
      filesChildless c && filesChildless rest

/-- Within both type-groups of a level: in ascending time order
(`asc = true`) no absent-timestamp entry follows a truthy-timestamp
entry (absent sorts first); in descending order (`asc = false`) no
truthy-timestamp entry follows an absent one (absent sorts last).
`sel` selects the timestamp field read by the comparator. -/
def timeGroupsSeparated (sel : NodeData → Option String) (asc : Bool)
    (l : List NotesTreeNode) : Bool :=
  let ts := fun n : NotesTreeNode => jsTruthyStr (sel n.data)
  let ab := fun n : NotesTreeNode => (sel n.data).isNone
  if asc then
    noneAfter ts ab (l.filter isFolderNode) && noneAfter ts ab (l.filter isFileNode)
  else
    noneAfter ab ts (l.filter isFolderNode) && noneAfter ab ts (l.filter isFileNode)

/-- Node-level reconciliation check: a file node carrying a `fileId`
resolves in the store and its `name` equals the stored `origin_name`. -/
def reconciledData (store : String → Option FileMeta) (d : NodeData) : Bool :=
  match d.fileId with
  | some fid =>
    if d.type = NodeType.file then
      match store fid with
      | some m => d.name = m.origin_name
      | none => false
    else true
  | none => true

/-- Reconciled against the metadata store, at every level. -/
def reconciledB (store : String → Option FileMeta) : List NotesTreeNode → Bool
  | [] => true
  | .node d c :: rest =>
    reconciledData store d && reconciledB store c && reconciledB store rest

/-- Node-level check that a file node with a truthy `fileId` whose
lookup succeeds already carries the stored `origin_name`; unresolvable
ids are allowed.  This is the per-node post-state of
`updateFileNameData`. -/
def namesMatchData (mf : String → Option FileMeta) (d : NodeData) : Bool :=
  match d.fileId with
  | some fid =>
    if d.type = NodeType.file ∧ fid ≠ "" then
      match mf fid with
      | some m => d.name = m.origin_name
      | none => true
    else true
  | none => true

/-- `namesMatchData` at every level. -/
def namesMatch (mf : String → Option FileMeta) : List NotesTreeNode → Bool
  | [] => true
  | .node d c :: rest =>
    namesMatchData mf d && namesMatch mf c && namesMatch mf rest

/-- No node carries the JS-falsy `fileId` value `some ""` (the app only
ever stores uuid file ids). -/
def noEmptyFileIds : List NotesTreeNode → Bool
  | [] => true
  | .node d c :: rest =>
    (d.fileId ≠ some "") && noEmptyFileIds c && noEmptyFileIds rest

/-- A childless folder node with id `f`, for concrete instances. -/
def sampleFolder : NotesTreeNode := .node
  { id := "f", name := "f", type := .folder, treePath := none,
    is_starred := none, expanded := some true, fileId := none,
    createdAt := some "t1", updatedAt := some "t1" } []

/-- A folder `p` containing the folder `q`, for concrete instances. -/
def sampleNestedFolders : List NotesTreeNode :=
  [.node
    { id := "p", name := "p", type := .folder, treePath := none,
      is_starred := none, expanded := some true, fileId := none,
      createdAt := some "t1", updatedAt := some "t1" }
    [.node
      { id := "q", name := "q", type := .folder, treePath := none,
        is_starred := none, expanded := some true, fileId := none,
        createdAt := some "t1", updatedAt := some "t1" } []]]

/-- A file node with id `a`, name `a.md`, `fileId x`, for concrete
instances. -/
def sampleFile : NotesTreeNode := .node
  { id := "a", name := "a.md", type := .file, treePath := some "/a.md",
    is_starred := none, expanded := none, fileId := some "x",
    createdAt := some "t1", updatedAt := some "t1" } []

/-- Metadata store used in concrete instances: `x` resolves to a file
whose stored display name is `a.md`. -/
def sampleStore : String → Option FileMeta :=
  fun i => if i = "x" then some { id := "x", origin_name := "a.md" } else none

/-- A file node with id `b`, name `gone.md` and the dangling `fileId y`,
for concrete instances. -/
def sampleGoneFile : NotesTreeNode := .node
  { id := "b", name := "gone.md", type := .file, treePath := some "/gone.md",
    is_starred := none, expanded := none, fileId := some "y",
    createdAt := some "t1", updatedAt := some "t1" } []

/-- A folder holding `sampleFile` (resolvable, stale name) and
`sampleGoneFile` (dangling id), for concrete instances. -/
def sampleSyncTree : List NotesTreeNode :=
  [.node
    { id := "p", name := "p", type := .folder, treePath := none,
      is_starred := none, expanded := some true, fileId := none,
      createdAt := some "t1", updatedAt := some "t1" }
    [sampleFile, sampleGoneFile]]

/-- Moving a node `inside` a target when the ancestry guard fires (and the
folder-into-file rejection does not) makes `sortNodes` return `false`
with the tree unchanged. -/
theorem sortNodes_inside_rejected (tree : List NotesTreeNode)
    (s t now : String) (sn tn : NotesTreeNode)
    (hs : findNodeInTree tree s = some sn)
    (ht : findNodeInTree tree t = some tn)
    (hty : ¬(tn.data.type = NodeType.file ∧ sn.data.type = NodeType.folder))
    (hpar : isParentNode tree s t = true) :
    sortNodes tree s t MovePosition.inside now = (false, tree) := by
  have h1 : ¬(True ∧ tn.data.type = NodeType.file ∧
      sn.data.type = NodeType.folder) := fun h => hty h.2
  have h2 : True ∧ isParentNode tree s t = true := ⟨trivial, hpar⟩
  simp only [sortNodes, hs, ht]
  rw [if_neg h1, if_pos h2]

/-- Claim C1 (code bug witness evaluation).  Moving a folder `inside` a
strict descendant is rejected — `sortNodes` returns `false` and persists
nothing — but moving a folder `inside` itself slips past the
`isParentNode` guard (which only detects strict ancestry): the source
removes the node from the tree, pushes it into its own now-detached
children array, saves, and returns `true`, so the call reports success
and the node disappears from the persisted tree, contradicting the
claimed "returns false and leaves the tree unchanged". -/
theorem c1_self_inside_move_returns_true_and_drops_node :
    sortNodes [sampleFolder] "f" "f" MovePosition.inside "t2" = (true, []) ∧
    sortNodes sampleNestedFolders "p" "q" MovePosition.inside "t2"
      = (false, sampleNestedFolders) := by
  constructor
  · have hf : findNodeInTree [sampleFolder] "f" = some sampleFolder := by
      simp [findNodeInTree, sampleFolder]
    have hip : isParentNode [sampleFolder] "f" "f" = false := by
      simp [isParentNode, isParentNodeFuel, nodeCount, findNodeInTree,
        sampleFolder, NotesTreeNode.data, NotesTreeNode.children]
    have hrm : removeNodeFromTree [sampleFolder] "f" = ([], true) := by
      simp [removeNodeFromTree, sampleFolder]
    have hupd : ∀ g : NotesTreeNode → NotesTreeNode,
        updateFirstNode g [] "f" = ([], false) := fun g => by
      simp [updateFirstNode]
    have hty : sampleFolder.data.type = NodeType.folder := rfl
    simp only [sortNodes]
    simp [hf, hip, hrm, hupd, hty]
  · have hq : findNodeInTree sampleNestedFolders "q"
        = some (.node
          { id := "q", name := "q", type := .folder, treePath := none,
            is_starred := none, expanded := some true, fileId := none,
            createdAt := some "t1", updatedAt := some "t1" } []) := by
      simp [findNodeInTree, sampleNestedFolders]
    have hp : findNodeInTree sampleNestedFolders "p"
        = some (.node
          { id := "p", name := "p", type := .folder, treePath := none,
            is_starred := none, expanded := some true, fileId := none,
            createdAt := some "t1", updatedAt := some "t1" }
          [.node
            { id := "q", name := "q", type := .folder, treePath := none,
              is_starred := none, expanded := some true, fileId := none,
              createdAt := some "t1", updatedAt := some "t1" } []]) := by
      simp [findNodeInTree, sampleNestedFolders]
    have hcount : nodeCount sampleNestedFolders = 2 := by
      simp [nodeCount, sampleNestedFolders]
    have hip : isParentNode sampleNestedFolders "p" "q" = true := by
      rw [isParentNode, hcount, isParentNodeFuel, hq, hp]
      show (if (NotesTreeNode.node
          { id := "p", name := "p", type := .folder, treePath := none,
            is_starred := none, expanded := some true, fileId := none,
            createdAt := some "t1", updatedAt := some "t1" }
          [.node
            { id := "q", name := "q", type := .folder, treePath := none,
              is_starred := none, expanded := some true, fileId := none,
              createdAt := some "t1", updatedAt := some "t1" } []]).data.type
            = NodeType.folder then
          if ((NotesTreeNode.node
              { id := "p", name := "p", type := .folder, treePath := none,
                is_starred := none, expanded := some true, fileId := none,
                createdAt := some "t1", updatedAt := some "t1" }
              [.node
                { id := "q", name := "q", type := .folder, treePath := none,
                  is_starred := none, expanded := some true, fileId := none,
                  createdAt := some "t1", updatedAt := some "t1" } []]).children.any
              (fun child => child.data.id = "q")) = true then true
          else (NotesTreeNode.node
              { id := "p", name := "p", type := .folder, treePath := none,
                is_starred := none, expanded := some true, fileId := none,
                createdAt := some "t1", updatedAt := some "t1" }
              [.node
                { id := "q", name := "q", type := .folder, treePath := none,
                  is_starred := none, expanded := some true, fileId := none,
                  createdAt := some "t1", updatedAt := some "t1" } []]).children.any
              (fun child =>
                isParentNodeFuel sampleNestedFolders 1 child.data.id "q")
        else false) = true
      rfl
    exact sortNodes_inside_rejected sampleNestedFolders "p" "q" "t2" _ _ hp hq
      (by rintro ⟨h, -⟩; exact absurd h (by decide)) hip

/-- Claim C5: when reading the persisted tree record fails, `getNotesTree`
swallows the error and returns the empty forest, persisting nothing. -/
theorem c5_read_failure_returns_empty_forest
    (store : String → Option FileMeta) (now : String) :
    getNotesTree (.error ()) store now = ([], none) := rfl

/-- Claim C10: when `createFolder` / `createNote` is called with a truthy
`parentId` that is absent from the tree or resolves to a file node,
`insertNodeIntoTree` inserts the new node nowhere: the persisted tree is
exactly the input tree, and (for a fresh id) the returned node is not in
the persisted forest. -/
theorem c10_invalid_parent_inserts_nowhere
    (tree : List NotesTreeNode) (freshId name now pid : String)
    (hpid : pid ≠ "")
    (hbad : findNodeInTree tree pid = none ∨
      ∃ p, findNodeInTree tree pid = some p ∧ p.data.type = NodeType.file) :
    (createFolder tree freshId name now (some pid)).2 = tree ∧
    (createNote tree freshId name now (some pid)).2 = tree ∧
    (findNodeInTree tree freshId = none →
      findNodeInTree (createFolder tree freshId name now (some pid)).2 freshId = none ∧
      findNodeInTree (createNote tree freshId name now (some pid)).2 freshId = none) := by
  have hins : ∀ n : NotesTreeNode, insertNodeIntoTree tree n (some pid) = tree := by
    intro n
    unfold insertNodeIntoTree
    rcases hbad with h | ⟨p, hp, ht⟩
    · simp [hpid, h]
    · simp [hpid, hp, ht]
  refine ⟨hins _, hins _, ?_⟩
  intro hfresh
  constructor
  · show findNodeInTree (insertNodeIntoTree tree _ (some pid)) freshId = none
    rw [hins]
    exact hfresh
  · show findNodeInTree (insertNodeIntoTree tree _ (some pid)) freshId = none
    rw [hins]
    exact hfresh

/-- Witness for C10 at a concrete input: the parent id resolves to a file
node, so the created nodes are returned but not inserted. -/
theorem c10_invalid_parent_inserts_nowhere_witness :
    (createFolder [sampleFile] "g" "new" "t2" (some "a")).2 = [sampleFile] ∧
    (createNote [sampleFile] "g" "new" "t2" (some "a")).2 = [sampleFile] ∧
    (findNodeInTree [sampleFile] "g" = none →
      findNodeInTree (createFolder [sampleFile] "g" "new" "t2" (some "a")).2 "g" = none ∧
      findNodeInTree (createNote [sampleFile] "g" "new" "t2" (some "a")).2 "g" = none) :=
  c10_invalid_parent_inserts_nowhere [sampleFile] "g" "new" "t2" "a"
    (by decide)
    (Or.inr ⟨sampleFile, by simp [findNodeInTree, sampleFile], by simp [sampleFile, NotesTreeNode.data]⟩)

theorem updateFirstNode_found (f : NotesTreeNode → NotesTreeNode) :
    ∀ (ts : List NotesTreeNode) (i : String),
      (updateFirstNode f ts i).2 = (findNodeInTree ts i).isSome
  | [], i => by simp [updateFirstNode, findNodeInTree]
  | .node d c :: rest, i => by
    rw [updateFirstNode, findNodeInTree]
    by_cases h : d.id = i
    · simp [h]
    · simp only [if_neg h]
      have ihc := updateFirstNode_found f c i
      have ihr := updateFirstNode_found f rest i
      rcases hu : updateFirstNode f c i with ⟨c2, b⟩
      rw [hu] at ihc
      cases hfc : findNodeInTree c i with
      | none =>
        rw [hfc] at ihc
        simp at ihc
        subst ihc
        simpa using ihr
      | some x =>
        rw [hfc] at ihc
        simp at ihc
        subst ihc
        simp

theorem updateFirstNode_not_found (f : NotesTreeNode → NotesTreeNode) :
    ∀ (ts : List NotesTreeNode) (i : String),
      findNodeInTree ts i = none → updateFirstNode f ts i = (ts, false)
  | [], i => by simp [updateFirstNode]
  | .node d c :: rest, i => by
    intro hn
    rw [findNodeInTree] at hn
    by_cases h : d.id = i
    · simp [h] at hn
    · simp only [if_neg h] at hn
      cases hfc : findNodeInTree c i with
      | none =>
        rw [hfc] at hn
        simp at hn
        have ihc := updateFirstNode_not_found f c i hfc
        have ihr := updateFirstNode_not_found f rest i hn
        rw [updateFirstNode]
        simp only [if_neg h, ihc, ihr]
      | some x => rw [hfc] at hn; simp at hn

theorem findNodeInTree_updateFirstNode (f : NotesTreeNode → NotesTreeNode)
    (hf : ∀ n, (f n).data.id = n.data.id) :
    ∀ (ts : List NotesTreeNode) (i : String),
      findNodeInTree (updateFirstNode f ts i).1 i =
        (findNodeInTree ts i).map f
  | [], i => by simp [updateFirstNode, findNodeInTree]
  | .node d c :: rest, i => by
    by_cases h : d.id = i
    · rw [updateFirstNode]
      simp only [if_pos h]
      rcases hfn : f (.node d c) with ⟨d2, c2⟩
      have hd2 : d2.id = d.id := by
        have := hf (.node d c)
        rw [hfn] at this
        simpa [NotesTreeNode.data] using this
      simp only [findNodeInTree, hd2, h, if_pos, hfn]
      simp [hfn]
    · have ihc := findNodeInTree_updateFirstNode f hf c i
      have ihr := findNodeInTree_updateFirstNode f hf rest i
      rw [updateFirstNode]
      simp only [if_neg h]
      rcases hu : updateFirstNode f c i with ⟨c2, b⟩
      rw [hu] at ihc
      have hb := updateFirstNode_found f c i
      rw [hu] at hb
      cases hfc : findNodeInTree c i with
      | none =>
        rw [hfc] at ihc hb
        simp at hb
        subst hb
        simp only [findNodeInTree, if_neg h, hfc]
        simpa using ihr
      | some x =>
        rw [hfc] at ihc hb
        simp at hb
        subst hb
        simp only [findNodeInTree, if_neg h]
        simp only [hfc] at ihc ⊢
        rw [ihc]
        simp

/-- If `f` preserves node ids and the id resolves to `n`, then after the
first-match update the same id resolves to `f n`. -/
theorem findNodeInTree_after_update (f : NotesTreeNode → NotesTreeNode)
    (hf : ∀ m, (f m).data.id = m.data.id) (ts : List NotesTreeNode)
    (i : String) (n : NotesTreeNode)
    (hfind : findNodeInTree ts i = some n) :
    findNodeInTree (updateFirstNode f ts i).1 i = some (f n) := by
  rw [findNodeInTree_updateFirstNode f hf ts i, hfind]
  rfl

/-- Claim C7 (counterexample): renaming the file node `a` (name `a.md`,
`treePath /a.md`, no parent) to `b` yields name `b.md` and a bumped
`updatedAt`, but the node's `treePath` still reads `/a.md` — the
internal-mode `renameNode` never recomputes `treePath`, so the path does
not reflect the new name even though this mode tracks `treePath` for file
nodes (it is set by `createNote` and rewritten by the move operations). -/
theorem c7_rename_does_not_update_treePath :
    renameNode [sampleFile] "a" "b" "t2" sampleStore
      = .ok ([.node { sampleFile.data with name := "b.md", updatedAt := some "t2" } []],
          some ("x", "b.md")) ∧
    ({ sampleFile.data with name := "b.md", updatedAt := some "t2" } : NodeData).treePath
      = some "/a.md" := by
  have he : jsEndsWith (jsToLower "b") ".md" = false := by decide
  constructor
  · simp [renameNode, findNodeInTree, updateFirstNode, sampleFile, sampleStore,
      jsTruthyStr, NotesTreeNode.data, NotesTreeNode.children, he, MARKDOWN_EXT]
  · simp [sampleFile, NotesTreeNode.data]

/-- Claim C7 (amended): for every node id that resolves, `renameNode`
succeeds and the node afterwards carries the new name (with the markdown
extension appended for file nodes whose new name lacks it,
case-insensitively) and `updatedAt := now`, while every other field —
`treePath` in particular, hence all ancestor path segments — is exactly
as before. -/
theorem c7_amended_rename_updates_name_and_updatedAt_only
    (tree : List NotesTreeNode) (nodeId newName now : String)
    (store : String → Option FileMeta) (n : NotesTreeNode)
    (hfind : findNodeInTree tree nodeId = some n) :
    ∃ t' mu,
      renameNode tree nodeId newName now store = .ok (t', mu) ∧
      findNodeInTree t' nodeId = some (.node
        { n.data with
            name := if n.data.type = NodeType.file ∧
                ¬(jsEndsWith (jsToLower newName) MARKDOWN_EXT) then
                newName ++ MARKDOWN_EXT else newName,
            updatedAt := some now }
        n.children) := by
  rcases n with ⟨nd, nc⟩
  simp only [renameNode, hfind]
  refine ⟨_, _, rfl, ?_⟩
  refine (findNodeInTree_after_update _ ?_ tree nodeId _ hfind).trans ?_
  · intro m
    cases m
    simp [NotesTreeNode.data, NotesTreeNode.children]
  · simp [NotesTreeNode.data, NotesTreeNode.children]

/-- Witness for the amended C7 at a concrete input: renaming the file
node `a` to `b` gives name `b.md`, `updatedAt t2`, and an otherwise
unchanged node. -/
theorem c7_amended_rename_witness :
    ∃ t' mu,
      renameNode [sampleFile] "a" "b" "t2" sampleStore = .ok (t', mu) ∧
      findNodeInTree t' "a" = some (.node
        { sampleFile.data with
            name := if sampleFile.data.type = NodeType.file ∧
                ¬(jsEndsWith (jsToLower "b") MARKDOWN_EXT) then
                "b" ++ MARKDOWN_EXT else "b",
            updatedAt := some "t2" }
        sampleFile.children) :=
  c7_amended_rename_updates_name_and_updatedAt_only [sampleFile] "a" "b" "t2"
    sampleStore sampleFile (by simp [findNodeInTree, sampleFile])

/-- Claim C8 (counterexample): `toggleStarred` on a folder node is not a
no-op — the source has no node-type guard, so the call flips
`is_starred` on the folder (from `undefined` to `true`) and persists the
tree. -/
theorem c8_toggleStarred_flips_folders_too :
    toggleStarred [sampleFolder] "f"
      = ([.node { sampleFolder.data with is_starred := some true } []], true) := by
  simp [toggleStarred, findNodeInTree, updateFirstNode, sampleFolder, jsNegate,
    NotesTreeNode.data, NotesTreeNode.children]

/-- Claim C8 (amended): `toggleNodeExpanded` flips `expanded` and persists
only when the id resolves to a folder node, and is a silent no-op (tree
unchanged, nothing persisted) when the id does not resolve or resolves to
a file; `toggleStarred` is a silent no-op when the id does not resolve
but flips `is_starred` and persists on every resolved node, folders
included. -/
theorem c8_amended_toggle_behaviour
    (tree : List NotesTreeNode) (nodeId : String) :
    (findNodeInTree tree nodeId = none →
      toggleNodeExpanded tree nodeId = (tree, false) ∧
      toggleStarred tree nodeId = (tree, false)) ∧
    (∀ n, findNodeInTree tree nodeId = some n →
      (n.data.type = NodeType.file → toggleNodeExpanded tree nodeId = (tree, false)) ∧
      (n.data.type = NodeType.folder →
        (toggleNodeExpanded tree nodeId).2 = true ∧
        findNodeInTree (toggleNodeExpanded tree nodeId).1 nodeId = some (.node
          { n.data with expanded := some (jsNegate n.data.expanded) } n.children)) ∧
      ((toggleStarred tree nodeId).2 = true ∧
        findNodeInTree (toggleStarred tree nodeId).1 nodeId = some (.node
          { n.data with is_starred := some (jsNegate n.data.is_starred) } n.children))) := by
  constructor
  · intro hnone
    constructor
    · rw [toggleNodeExpanded, hnone]
    · rw [toggleStarred, hnone]
  · intro n hfind
    rcases n with ⟨nd, nc⟩
    refine ⟨?_, ?_, ?_, ?_⟩
    · intro hty
      simp only [NotesTreeNode.data] at hty
      rw [toggleNodeExpanded, hfind]
      simp [NotesTreeNode.data, hty]
    · intro hty
      simp only [NotesTreeNode.data] at hty
      constructor
      · rw [toggleNodeExpanded, hfind]
        simp [NotesTreeNode.data, hty]
      · simp only [toggleNodeExpanded, hfind, NotesTreeNode.data]
        rw [hty, if_pos rfl]
        refine (findNodeInTree_after_update _ ?_ tree nodeId _ hfind).trans ?_
        · intro m
          cases m
          simp [NotesTreeNode.data, NotesTreeNode.children]
        · simp [NotesTreeNode.data, NotesTreeNode.children, hty]
    · rw [toggleStarred, hfind]
    · rw [toggleStarred, hfind]
      refine (findNodeInTree_after_update _ ?_ tree nodeId _ hfind).trans ?_
      · intro m
        cases m
        simp [NotesTreeNode.data, NotesTreeNode.children]
      · simp [NotesTreeNode.data, NotesTreeNode.children]

/-- Witness for the amended C8 at a concrete input: a one-folder tree. -/
theorem c8_amended_toggle_behaviour_witness :
    (findNodeInTree [sampleFolder] "f" = none →
      toggleNodeExpanded [sampleFolder] "f" = ([sampleFolder], false) ∧
      toggleStarred [sampleFolder] "f" = ([sampleFolder], false)) ∧
    (∀ n, findNodeInTree [sampleFolder] "f" = some n →
      (n.data.type = NodeType.file →
        toggleNodeExpanded [sampleFolder] "f" = ([sampleFolder], false)) ∧
      (n.data.type = NodeType.folder →
        (toggleNodeExpanded [sampleFolder] "f").2 = true ∧
        findNodeInTree (toggleNodeExpanded [sampleFolder] "f").1 "f" = some (.node
          { n.data with expanded := some (jsNegate n.data.expanded) } n.children)) ∧
      ((toggleStarred [sampleFolder] "f").2 = true ∧
        findNodeInTree (toggleStarred [sampleFolder] "f").1 "f" = some (.node
          { n.data with is_starred := some (jsNegate n.data.is_starred) } n.children))) :=
  c8_amended_toggle_behaviour [sampleFolder] "f"

theorem mem_of_mem_sortNodesArray (lc : String → String → Int)
    (pt : String → Int) (st : NotesSortType) (l : List NotesTreeNode)
    (n : NotesTreeNode) (h : n ∈ sortNodesArray lc pt st l) : n ∈ l := by
  unfold sortNodesArray jsSortBy at h
  rcases List.mem_append.mp h with h | h <;>
    exact List.mem_of_mem_filter (List.mem_mergeSort.mp h)

theorem filter_folder_sortNodesArray (lc : String → String → Int)
    (pt : String → Int) (st : NotesSortType) (l : List NotesTreeNode) :
    (sortNodesArray lc pt st l).filter isFolderNode
      = jsSortBy (getSortFunction lc pt st) (l.filter isFolderNode) := by
  unfold sortNodesArray
  rw [List.filter_append]
  have h1 : (jsSortBy (getSortFunction lc pt st) (l.filter isFolderNode)).filter
      isFolderNode = jsSortBy (getSortFunction lc pt st) (l.filter isFolderNode) := by
    apply List.filter_eq_self.mpr
    intro a ha
    exact List.of_mem_filter (List.mem_mergeSort.mp ha)
  have h2 : (jsSortBy (getSortFunction lc pt st) (l.filter isFileNode)).filter
      isFolderNode = [] := by
    rw [List.filter_eq_nil_iff]
    intro a ha
    have hf := List.of_mem_filter (List.mem_mergeSort.mp ha)
    simp only [isFolderNode, isFileNode, decide_eq_true_eq] at hf ⊢
    rw [hf]
    simp
  rw [h1, h2, List.append_nil]

theorem filter_file_sortNodesArray (lc : String → String → Int)
    (pt : String → Int) (st : NotesSortType) (l : List NotesTreeNode) :
    (sortNodesArray lc pt st l).filter isFileNode
      = jsSortBy (getSortFunction lc pt st) (l.filter isFileNode) := by
  unfold sortNodesArray
  rw [List.filter_append]
  have h1 : (jsSortBy (getSortFunction lc pt st) (l.filter isFolderNode)).filter
      isFileNode = [] := by
    rw [List.filter_eq_nil_iff]
    intro a ha
    have hf := List.of_mem_filter (List.mem_mergeSort.mp ha)
    simp only [isFolderNode, isFileNode, decide_eq_true_eq] at hf ⊢
    rw [hf]
    simp
  have h2 : (jsSortBy (getSortFunction lc pt st) (l.filter isFileNode)).filter
      isFileNode = jsSortBy (getSortFunction lc pt st) (l.filter isFileNode) := by
    apply List.filter_eq_self.mpr
    intro a ha
    exact List.of_mem_filter (List.mem_mergeSort.mp ha)
  rw [h1, h2, List.nil_append]

theorem foldersBeforeFiles_of_all_file :
    ∀ l : List NotesTreeNode, (∀ n ∈ l, isFileNode n = true) →
      foldersBeforeFiles l = true
  | [], _ => rfl
  | a :: rest, h => by
    rw [foldersBeforeFiles]
    have ha := h a (List.mem_cons_self a rest)
    have hrest : ∀ n ∈ rest, isFileNode n = true :=
      fun n hn => h n (List.mem_cons_of_mem a hn)
    rw [ha]
    simp only [if_true, Bool.and_eq_true]
    constructor
    · exact List.all_eq_true.mpr hrest
    · exact foldersBeforeFiles_of_all_file rest hrest

theorem foldersBeforeFiles_append :
    ∀ (f g : List NotesTreeNode), (∀ n ∈ f, isFolderNode n = true) →
      (∀ n ∈ g, isFileNode n = true) → foldersBeforeFiles (f ++ g) = true
  | [], g, _, hg => by exact foldersBeforeFiles_of_all_file g hg
  | a :: f, g, hf, hg => by
    rw [List.cons_append, foldersBeforeFiles]
    have ha := hf a (List.mem_cons_self a f)
    have hfile : isFileNode a = false := by
      simp only [isFolderNode, decide_eq_true_eq] at ha
      simp [isFileNode, ha]
    rw [hfile]
    simp only [Bool.false_eq_true, if_false, Bool.true_and]
    exact foldersBeforeFiles_append f g
      (fun n hn => hf n (List.mem_cons_of_mem a hn)) hg

theorem foldersBeforeFiles_sortNodesArray (lc : String → String → Int)
    (pt : String → Int) (st : NotesSortType) (l : List NotesTreeNode) :
    foldersBeforeFiles (sortNodesArray lc pt st l) = true := by
  unfold sortNodesArray
  apply foldersBeforeFiles_append
  · intro n hn
    exact List.of_mem_filter (List.mem_mergeSort.mp hn)
  · intro n hn
    exact List.of_mem_filter (List.mem_mergeSort.mp hn)

theorem orderedBy_of_pairwise (cmp : NotesTreeNode → NotesTreeNode → Int) :
    ∀ l : List NotesTreeNode,
      l.Pairwise (fun a b => cmp a b ≤ 0) → orderedBy cmp l = true
  | [], _ => rfl
  | [_], _ => rfl
  | a :: b :: rest, h => by
    rw [orderedBy]
    rcases List.pairwise_cons.mp h with ⟨hrel, htail⟩
    simp only [Bool.and_eq_true, decide_eq_true_eq]
    exact ⟨hrel b (List.mem_cons_self b rest),
      orderedBy_of_pairwise cmp (b :: rest) htail⟩

theorem orderedBy_jsSortBy (cmp : NotesTreeNode → NotesTreeNode → Int)
    (htrans : ∀ a b c, cmp a b ≤ 0 → cmp b c ≤ 0 → cmp a c ≤ 0)
    (htotal : ∀ a b, cmp a b ≤ 0 ∨ cmp b a ≤ 0)
    (l : List NotesTreeNode) : orderedBy cmp (jsSortBy cmp l) = true := by
  apply orderedBy_of_pairwise
  have hs := @List.sorted_mergeSort NotesTreeNode
    (fun a b => decide (cmp a b ≤ 0))
    (fun a b c hab hbc => by
      simp only [decide_eq_true_eq] at *
      exact htrans a b c hab hbc)
    (fun a b => by
      rcases htotal a b with h | h <;> simp [h])
    l
  exact hs.imp (fun h => by simpa using h)

theorem getSortFunction_le_trans (lc : String → String → Int) (pt : String → Int)
    (hlt : ∀ x y z, lc x y ≤ 0 → lc y z ≤ 0 → lc x z ≤ 0) (st : NotesSortType) :
    ∀ a b c, getSortFunction lc pt st a b ≤ 0 → getSortFunction lc pt st b c ≤ 0 →
      getSortFunction lc pt st a c ≤ 0 := by
  intro a b c hab hbc
  cases st <;> simp only [getSortFunction] at hab hbc ⊢ <;>
    first
      | exact hlt _ _ _ hab hbc
      | exact hlt _ _ _ hbc hab
      | omega

theorem getSortFunction_le_total (lc : String → String → Int) (pt : String → Int)
    (hto : ∀ x y, lc x y ≤ 0 ∨ lc y x ≤ 0) (st : NotesSortType) :
    ∀ a b, getSortFunction lc pt st a b ≤ 0 ∨ getSortFunction lc pt st b a ≤ 0 := by
  intro a b
  cases st <;> simp only [getSortFunction] <;>
    first
      | exact hto _ _
      | omega

theorem groupsOrderedBy_sortNodesArray (lc : String → String → Int)
    (pt : String → Int)
    (hlt : ∀ x y z, lc x y ≤ 0 → lc y z ≤ 0 → lc x z ≤ 0)
    (hto : ∀ x y, lc x y ≤ 0 ∨ lc y x ≤ 0)
    (st : NotesSortType) (l : List NotesTreeNode) :
    groupsOrderedBy (getSortFunction lc pt st) (sortNodesArray lc pt st l) = true := by
  unfold groupsOrderedBy
  rw [filter_folder_sortNodesArray, filter_file_sortNodesArray]
  rw [orderedBy_jsSortBy _ (getSortFunction_le_trans lc pt hlt st)
    (getSortFunction_le_total lc pt hto st),
    orderedBy_jsSortBy _ (getSortFunction_le_trans lc pt hlt st)
    (getSortFunction_le_total lc pt hto st)]
  rfl

theorem allChildLevels_iff (p : List NotesTreeNode → Bool) :
    ∀ l : List NotesTreeNode, allChildLevels p l = true ↔
      ∀ n ∈ l, p n.children = true ∧ allChildLevels p n.children = true
  | [] => by simp [allChildLevels]
  | .node d c :: rest => by
    rw [allChildLevels]
    simp only [Bool.and_eq_true, List.mem_cons]
    constructor
    · rintro ⟨⟨hpc, hacl⟩, hrest⟩ n hn
      rcases hn with rfl | hn
      · exact ⟨hpc, hacl⟩
      · exact ((allChildLevels_iff p rest).mp hrest) n hn
    · intro h
      exact ⟨⟨(h _ (Or.inl rfl)).1, (h _ (Or.inl rfl)).2⟩,
        (allChildLevels_iff p rest).mpr (fun n hn => h n (Or.inr hn))⟩

theorem allChildLevels_sortDeep (lc : String → String → Int)
    (pt : String → Int) (st : NotesSortType) (p : List NotesTreeNode → Bool)
    (hp : ∀ l, p (sortNodesArray lc pt st l) = true) (hnil : p [] = true) :
    ∀ t : List NotesTreeNode, filesChildless t = true →
      allChildLevels p (sortDeep lc pt st t) = true
  | [], _ => by simp [sortDeep, allChildLevels]
  | .node d c :: rest, hwf => by
    rw [filesChildless] at hwf
    simp only [Bool.and_eq_true] at hwf
    obtain ⟨⟨hfc, hwc⟩, hwr⟩ := hwf
    rw [sortDeep, allChildLevels]
    simp only [Bool.and_eq_true]
    by_cases hcond : d.type = NodeType.folder ∧ c.length > 0
    · simp only [if_pos hcond]
      refine ⟨⟨hp _, ?_⟩, allChildLevels_sortDeep lc pt st p hp hnil rest hwr⟩
      rw [allChildLevels_iff]
      intro n hn
      have hmem := mem_of_mem_sortNodesArray lc pt st _ n hn
      exact (allChildLevels_iff p (sortDeep lc pt st c)).mp
        (allChildLevels_sortDeep lc pt st p hp hnil c hwc) n hmem
    · have hce : c = [] := by
        cases hdt : d.type with
        | folder =>
          rcases Decidable.not_and_iff_or_not.mp hcond with h | h
          · exact absurd hdt h
          · simpa using List.length_eq_zero.mp (by omega)
        | file =>
          rw [hdt] at hfc
          simp only [if_true] at hfc
          exact List.isEmpty_iff.mp hfc
      subst hce
      simp only [if_neg hcond]
      exact ⟨⟨hnil, by simp [allChildLevels]⟩,
        allChildLevels_sortDeep lc pt st p hp hnil rest hwr⟩

theorem allLevels_sortAllLevels (lc : String → String → Int)
    (pt : String → Int) (st : NotesSortType) (p : List NotesTreeNode → Bool)
    (hp : ∀ l, p (sortNodesArray lc pt st l) = true) (hnil : p [] = true)
    (t : List NotesTreeNode) (hwf : filesChildless t = true) :
    allLevels p (sortAllLevels lc pt st t) = true := by
  unfold allLevels sortAllLevels
  rw [Bool.and_eq_true]
  refine ⟨hp _, ?_⟩
  rw [allChildLevels_iff]
  intro n hn
  exact (allChildLevels_iff p (sortDeep lc pt st t)).mp
    (allChildLevels_sortDeep lc pt st p hp hnil t hwf) n
    (mem_of_mem_sortNodesArray lc pt st _ n hn)

theorem noneAfter_of_pairwise (q p : NotesTreeNode → Bool)
    (R : NotesTreeNode → NotesTreeNode → Prop)
    (hqp : ∀ a b, q a = true → p b = true → ¬ R a b) :
    ∀ l : List NotesTreeNode, l.Pairwise R → noneAfter q p l = true
  | [], _ => rfl
  | a :: rest, h => by
    rcases List.pairwise_cons.mp h with ⟨hrel, htail⟩
    rw [noneAfter]
    simp only [Bool.and_eq_true]
    refine ⟨?_, noneAfter_of_pairwise q p R hqp rest htail⟩
    by_cases hqa : q a = true
    · rw [if_pos hqa, List.all_eq_true]
      intro b hb
      by_cases hpb : p b = true
      · exact absurd (hrel b hb) (hqp a b hqa hpb)
      · simp only [Bool.not_eq_true] at hpb
        simp [hpb]
    · simp only [Bool.not_eq_true] at hqa
      simp [hqa]

theorem noneAfter_jsSortBy (cmp : NotesTreeNode → NotesTreeNode → Int)
    (q p : NotesTreeNode → Bool)
    (hqp : ∀ a b, q a = true → p b = true → ¬ (cmp a b ≤ 0))
    (htrans : ∀ a b c, cmp a b ≤ 0 → cmp b c ≤ 0 → cmp a c ≤ 0)
    (htotal : ∀ a b, cmp a b ≤ 0 ∨ cmp b a ≤ 0)
    (l : List NotesTreeNode) : noneAfter q p (jsSortBy cmp l) = true := by
  apply noneAfter_of_pairwise q p (fun a b => cmp a b ≤ 0) hqp
  have hs := @List.sorted_mergeSort NotesTreeNode
    (fun a b => decide (cmp a b ≤ 0))
    (fun a b c hab hbc => by
      simp only [decide_eq_true_eq] at *
      exact htrans a b c hab hbc)
    (fun a b => by
      rcases htotal a b with h | h <;> simp [h])
    l
  exact hs.imp (fun h => by simpa using h)

theorem jsTimeKey_pos_of_truthy (pt : String → Int)
    (hpos : ∀ s : String, s ≠ "" → 0 < pt s) (o : Option String)
    (ht : jsTruthyStr o = true) : 0 < jsTimeKey pt o := by
  cases o with
  | none => simp [jsTruthyStr] at ht
  | some s =>
    simp only [jsTruthyStr, decide_eq_true_eq] at ht
    simp only [jsTimeKey, if_neg ht]
    exact hpos s ht

theorem jsTimeKey_of_absent (pt : String → Int) (o : Option String)
    (ha : o.isNone = true) : jsTimeKey pt o = 0 := by
  cases o with
  | none => rfl
  | some s => simp at ha

theorem timeGroupsSeparated_sortNodesArray (lc : String → String → Int)
    (pt : String → Int) (hpos : ∀ s : String, s ≠ "" → 0 < pt s)
    (sel : NodeData → Option String) (st : NotesSortType) (asc : Bool)
    (hasc : asc = true → ∀ a b, getSortFunction lc pt st a b
      = jsTimeKey pt (sel a.data) - jsTimeKey pt (sel b.data))
    (hdesc : asc = false → ∀ a b, getSortFunction lc pt st a b
      = jsTimeKey pt (sel b.data) - jsTimeKey pt (sel a.data))
    (l : List NotesTreeNode) :
    timeGroupsSeparated sel asc (sortNodesArray lc pt st l) = true := by
  unfold timeGroupsSeparated
  cases asc with
  | true =>
    have hc := hasc rfl
    simp only [if_true]
    rw [Bool.and_eq_true, filter_folder_sortNodesArray, filter_file_sortNodesArray]
    constructor <;>
      exact noneAfter_jsSortBy _ _ _
        (fun a b hqa hpb hle => by
          rw [hc] at hle
          have h1 := jsTimeKey_pos_of_truthy pt hpos _ hqa
          have h2 := jsTimeKey_of_absent pt _ hpb
          omega)
        (fun a b c hab hbc => by rw [hc] at *; omega)
        (fun a b => by rw [hc, hc]; omega) _
  | false =>
    have hc := hdesc rfl
    simp only [Bool.false_eq_true, if_false]
    rw [Bool.and_eq_true, filter_folder_sortNodesArray, filter_file_sortNodesArray]
    constructor <;>
      exact noneAfter_jsSortBy _ _ _
        (fun a b hqa hpb hle => by
          rw [hc] at hle
          have h1 := jsTimeKey_pos_of_truthy pt hpos _ hpb
          have h2 := jsTimeKey_of_absent pt _ hqa
          omega)
        (fun a b c hab hbc => by rw [hc] at *; omega)
        (fun a b => by rw [hc, hc]; omega) _

/-- Claim C2: after `sortAllLevels` with any sort type, at the top level
and in every folder's children list, every folder-type node precedes
every file-type node (stated for data-model-conformant trees, in which
file nodes have no children — the recursion sorts exactly the levels
reachable through folders). -/
theorem c2_sortAllLevels_folders_before_files (lc : String → String → Int)
    (pt : String → Int) (st : NotesSortType) (tree : List NotesTreeNode)
    (hwf : filesChildless tree = true) :
    allLevels foldersBeforeFiles (sortAllLevels lc pt st tree) = true :=
  allLevels_sortAllLevels lc pt st foldersBeforeFiles
    (foldersBeforeFiles_sortNodesArray lc pt st) (by simp [foldersBeforeFiles])
    tree hwf

/-- Witness for C2 at a concrete input: a folder and a file at top level. -/
theorem c2_sortAllLevels_folders_before_files_witness :
    allLevels foldersBeforeFiles
      (sortAllLevels (fun _ _ => 0) (fun _ => 1) NotesSortType.sort_a2z
        [sampleFolder, sampleFile]) = true :=
  c2_sortAllLevels_folders_before_files (fun _ _ => 0) (fun _ => 1)
    NotesSortType.sort_a2z [sampleFolder, sampleFile]
    (by simp [filesChildless, sampleFolder, sampleFile])

/-- Claim C3: after `sortAllLevels`, at the top level and in every
folder's children list, the folder group and the file group are each
ordered by the comparator of the requested sort type — in particular
`sort_a2z` orders each group by the locale collation (`localeCompare`
with sensitivity `accent`, the opaque `lc`) of the names, ascending.
The hypotheses state that the host collator is a total preorder, which
`String.prototype.localeCompare` guarantees. -/
theorem c3_sortAllLevels_groups_ordered (lc : String → String → Int)
    (pt : String → Int)
    (hlt : ∀ x y z, lc x y ≤ 0 → lc y z ≤ 0 → lc x z ≤ 0)
    (hto : ∀ x y, lc x y ≤ 0 ∨ lc y x ≤ 0)
    (st : NotesSortType) (tree : List NotesTreeNode)
    (hwf : filesChildless tree = true) :
    allLevels (groupsOrderedBy (getSortFunction lc pt st))
      (sortAllLevels lc pt st tree) = true :=
  allLevels_sortAllLevels lc pt st (groupsOrderedBy (getSortFunction lc pt st))
    (groupsOrderedBy_sortNodesArray lc pt hlt hto st)
    (by simp [groupsOrderedBy, orderedBy]) tree hwf

/-- Witness for C3 at a concrete input, with the constant-zero collator
(a legitimate total preorder). -/
theorem c3_sortAllLevels_groups_ordered_witness :
    allLevels (groupsOrderedBy (getSortFunction (fun _ _ => 0) (fun _ => 1)
        NotesSortType.sort_a2z))
      (sortAllLevels (fun _ _ => 0) (fun _ => 1) NotesSortType.sort_a2z
        [sampleFolder, sampleFile]) = true :=
  c3_sortAllLevels_groups_ordered (fun _ _ => 0) (fun _ => 1)
    (fun _ _ _ _ _ => by simp) (fun _ _ => by simp)
    NotesSortType.sort_a2z [sampleFolder, sampleFile]
    (by simp [filesChildless, sampleFolder, sampleFile])

/-- Claim C9: in the four timestamp-based sort modes a node with an
absent timestamp gets key epoch zero (`jsTimeKey pt none = 0`), and —
provided every present timestamp has a positive epoch value, as the
ISO timestamps the app writes do — within each type-group of the sorted
level the absent-timestamp nodes sort as oldest: no absent node occurs
after a timestamped node in the ascending modes, and no timestamped
node occurs after an absent node in the descending modes. -/
theorem c9_missing_timestamps_sort_as_epoch_zero (lc : String → String → Int)
    (pt : String → Int) (hpos : ∀ s : String, s ≠ "" → 0 < pt s)
    (l : List NotesTreeNode) :
    jsTimeKey pt none = 0 ∧
    timeGroupsSeparated NodeData.updatedAt true
      (sortNodesArray lc pt NotesSortType.sort_updated_asc l) = true ∧
    timeGroupsSeparated NodeData.updatedAt false
      (sortNodesArray lc pt NotesSortType.sort_updated_desc l) = true ∧
    timeGroupsSeparated NodeData.createdAt true
      (sortNodesArray lc pt NotesSortType.sort_created_asc l) = true ∧
    timeGroupsSeparated NodeData.createdAt false
      (sortNodesArray lc pt NotesSortType.sort_created_desc l) = true := by
  refine ⟨rfl, ?_, ?_, ?_, ?_⟩
  · exact timeGroupsSeparated_sortNodesArray lc pt hpos NodeData.updatedAt
      NotesSortType.sort_updated_asc true (fun _ a b => rfl)
      (fun h => by cases h) l
  · exact timeGroupsSeparated_sortNodesArray lc pt hpos NodeData.updatedAt
      NotesSortType.sort_updated_desc false (fun h => by cases h)
      (fun _ a b => rfl) l
  · exact timeGroupsSeparated_sortNodesArray lc pt hpos NodeData.createdAt
      NotesSortType.sort_created_asc true (fun _ a b => rfl)
      (fun h => by cases h) l
  · exact timeGroupsSeparated_sortNodesArray lc pt hpos NodeData.createdAt
      NotesSortType.sort_created_desc false (fun h => by cases h)
      (fun _ a b => rfl) l

/-- Witness for C9 at a concrete input: unit parse function and a
two-node level. -/
theorem c9_missing_timestamps_witness :
    jsTimeKey (fun _ => 1) none = 0 ∧
    timeGroupsSeparated NodeData.updatedAt true
      (sortNodesArray (fun _ _ => 0) (fun _ => 1)
        NotesSortType.sort_updated_asc [sampleFolder, sampleFile]) = true ∧
    timeGroupsSeparated NodeData.updatedAt false
      (sortNodesArray (fun _ _ => 0) (fun _ => 1)
        NotesSortType.sort_updated_desc [sampleFolder, sampleFile]) = true ∧
    timeGroupsSeparated NodeData.createdAt true
      (sortNodesArray (fun _ _ => 0) (fun _ => 1)
        NotesSortType.sort_created_asc [sampleFolder, sampleFile]) = true ∧
    timeGroupsSeparated NodeData.createdAt false
      (sortNodesArray (fun _ _ => 0) (fun _ => 1)
        NotesSortType.sort_created_desc [sampleFolder, sampleFile]) = true :=
  c9_missing_timestamps_sort_as_epoch_zero (fun _ _ => 0) (fun _ => 1)
    (fun _ _ => by simp) [sampleFolder, sampleFile]

theorem updateFileNameData_fileId (mf : String → Option FileMeta)
    (now : String) (d : NodeData) :
    (updateFileNameData mf now d).1.fileId = d.fileId := by
  unfold updateFileNameData
  repeat' split
  all_goals rfl

theorem updateFileNameData_type (mf : String → Option FileMeta)
    (now : String) (d : NodeData) :
    (updateFileNameData mf now d).1.type = d.type := by
  unfold updateFileNameData
  repeat' split
  all_goals rfl

theorem updateFileNameData_no_change (mf : String → Option FileMeta)
    (now : String) (d : NodeData)
    (h : (updateFileNameData mf now d).2 = false) :
    (updateFileNameData mf now d).1 = d := by
  unfold updateFileNameData at h ⊢
  rcases hfid : d.fileId with _ | fid
  · simp [hfid]
  · simp only [hfid] at h ⊢
    by_cases hcond : d.type = NodeType.file ∧ fid ≠ ""
    · simp only [if_pos hcond] at h ⊢
      rcases hm : mf fid with _ | m
      · simp [hm]
      · simp only [hm] at h ⊢
        by_cases hne2 : m.origin_name ≠ d.name
        · simp [if_pos hne2] at h
        · simp [if_neg hne2]
    · simp [if_neg hcond]

theorem namesMatchData_updateFileNameData (mf : String → Option FileMeta)
    (now : String) (d : NodeData) :
    namesMatchData mf (updateFileNameData mf now d).1 = true := by
  unfold updateFileNameData namesMatchData
  rcases hfid : d.fileId with _ | fid
  · simp [hfid]
  · by_cases hcond : d.type = NodeType.file ∧ fid ≠ ""
    · rcases hm : mf fid with _ | m
      · simp [hfid, hcond, hm]
      · by_cases hne : m.origin_name ≠ d.name
        · simp [hfid, hcond, hm, hne]
        · simp only [not_not] at hne
          simp [hfid, hcond, hm, hne]
    · simp [hfid, hcond]

theorem updateFileNameData_of_namesMatch (mf : String → Option FileMeta)
    (now : String) (d : NodeData) (h : namesMatchData mf d = true) :
    updateFileNameData mf now d = (d, false) := by
  unfold namesMatchData at h
  unfold updateFileNameData
  rcases hfid : d.fileId with _ | fid
  · simp [hfid]
  · simp only [hfid] at h ⊢
    by_cases hcond : d.type = NodeType.file ∧ fid ≠ ""
    · simp only [if_pos hcond] at h ⊢
      rcases hm : mf fid with _ | m
      · simp [hm]
      · simp only [hm, decide_eq_true_eq] at h ⊢
        simp [h]
    · simp [if_neg hcond]

theorem updateFileNames_no_change (mf : String → Option FileMeta) (now : String) :
    ∀ t : List NotesTreeNode, (updateFileNames mf now t).2 = false →
      (updateFileNames mf now t).1 = t
  | [], _ => by simp [updateFileNames]
  | .node d c :: rest, h => by
    simp only [updateFileNames] at h ⊢
    simp only [Bool.or_eq_false_iff] at h
    obtain ⟨⟨hd, hc⟩, hr⟩ := h
    rw [updateFileNameData_no_change mf now d hd,
      updateFileNames_no_change mf now c hc,
      updateFileNames_no_change mf now rest hr]

theorem collect_updateFileNames (mf : String → Option FileMeta) (now : String) :
    ∀ t : List NotesTreeNode,
      collectFileIds ((updateFileNames mf now t).1) = collectFileIds t
  | [] => by simp [updateFileNames, collectFileIds]
  | .node d c :: rest => by
    simp only [updateFileNames, collectFileIds]
    rw [collect_updateFileNames mf now c, collect_updateFileNames mf now rest]
    rw [updateFileNameData_fileId]
    rcases hfid : d.fileId with _ | fid
    · rfl
    · rw [updateFileNameData_type]

theorem noEmpty_updateFileNames (mf : String → Option FileMeta) (now : String) :
    ∀ t : List NotesTreeNode,
      noEmptyFileIds ((updateFileNames mf now t).1) = noEmptyFileIds t
  | [] => by simp [updateFileNames, noEmptyFileIds]
  | .node d c :: rest => by
    simp only [updateFileNames, noEmptyFileIds]
    rw [noEmpty_updateFileNames mf now c, noEmpty_updateFileNames mf now rest]
    rw [updateFileNameData_fileId]

theorem namesMatch_updateFileNames (mf : String → Option FileMeta) (now : String) :
    ∀ t : List NotesTreeNode, namesMatch mf ((updateFileNames mf now t).1) = true
  | [] => by simp [updateFileNames, namesMatch]
  | .node d c :: rest => by
    simp only [updateFileNames, namesMatch]
    simp only [Bool.and_eq_true]
    exact ⟨⟨namesMatchData_updateFileNameData mf now d,
      namesMatch_updateFileNames mf now c⟩,
      namesMatch_updateFileNames mf now rest⟩

theorem updateFileNames_of_namesMatch (mf : String → Option FileMeta)
    (now : String) :
    ∀ t : List NotesTreeNode, namesMatch mf t = true →
      updateFileNames mf now t = (t, false)
  | [], _ => by simp [updateFileNames]
  | .node d c :: rest, h => by
    rw [namesMatch] at h
    simp only [Bool.and_eq_true] at h
    obtain ⟨⟨hd, hc⟩, hr⟩ := h
    simp only [updateFileNames, updateFileNameData_of_namesMatch mf now d hd,
      updateFileNames_of_namesMatch mf now c hc,
      updateFileNames_of_namesMatch mf now rest hr]
    simp

theorem removeDeletedFiles_no_change (del : List String) :
    ∀ t : List NotesTreeNode, (removeDeletedFiles del t).2 = false →
      (removeDeletedFiles del t).1 = t
  | [], _ => by simp [removeDeletedFiles]
  | .node d c :: rest, h => by
    simp only [removeDeletedFiles] at h ⊢
    by_cases hcond : d.type = NodeType.file ∧ jsTruthyStr d.fileId = true ∧
        del.contains (d.fileId.getD "") = true
    · rw [if_pos hcond] at h
      simp at h
    · rw [if_neg hcond] at h ⊢
      simp only [Bool.or_eq_false_iff] at h
      obtain ⟨hc, hr⟩ := h
      simp only [removeDeletedFiles_no_change del c hc,
        removeDeletedFiles_no_change del rest hr]

theorem removeDeletedFiles_nil :
    ∀ t : List NotesTreeNode, (removeDeletedFiles [] t).1 = t
  | [] => by simp [removeDeletedFiles]
  | .node d c :: rest => by
    simp only [removeDeletedFiles]
    have hcond : ¬(d.type = NodeType.file ∧ jsTruthyStr d.fileId = true ∧
        List.contains [] (d.fileId.getD "") = true) := by
      rintro ⟨_, _, hcon⟩
      simp [List.contains] at hcon
    rw [if_neg hcond]
    simp only [removeDeletedFiles_nil c, removeDeletedFiles_nil rest]

theorem noEmpty_removeDeletedFiles (del : List String) :
    ∀ t : List NotesTreeNode, noEmptyFileIds t = true →
      noEmptyFileIds ((removeDeletedFiles del t).1) = true
  | [], _ => by simp [removeDeletedFiles, noEmptyFileIds]
  | .node d c :: rest, h => by
    rw [noEmptyFileIds] at h
    simp only [Bool.and_eq_true] at h
    obtain ⟨⟨hd, hc⟩, hr⟩ := h
    simp only [removeDeletedFiles]
    by_cases hcond : d.type = NodeType.file ∧ jsTruthyStr d.fileId = true ∧
        del.contains (d.fileId.getD "") = true
    · rw [if_pos hcond]
      exact noEmpty_removeDeletedFiles del rest hr
    · rw [if_neg hcond]
      simp only [noEmptyFileIds, Bool.and_eq_true]
      exact ⟨⟨hd, noEmpty_removeDeletedFiles del c hc⟩,
        noEmpty_removeDeletedFiles del rest hr⟩

theorem metadataFind_store (store : String → Option FileMeta)
    (hwf : ∀ i m, store i = some m → m.id = i) (ids : List String)
    (x : String) (m : FileMeta)
    (h : metadataFind (ids.filterMap store) x = some m) : store x = some m := by
  unfold metadataFind at h
  have hmem := List.mem_of_find?_eq_some h
  have hpred := List.find?_some h
  rw [List.mem_reverse] at hmem
  rcases List.mem_filterMap.mp hmem with ⟨i, _, hstore⟩
  have hid : m.id = i := hwf i m hstore
  simp only [decide_eq_true_eq] at hpred
  have hix : i = x := by rw [← hid, hpred]
  rw [← hix]
  exact hstore

theorem metadataFind_isSome (store : String → Option FileMeta)
    (hwf : ∀ i m, store i = some m → m.id = i) (ids : List String)
    (x : String) (hx : x ∈ ids) (m : FileMeta) (hs : store x = some m) :
    (metadataFind (ids.filterMap store) x).isSome = true := by
  unfold metadataFind
  rw [List.find?_isSome]
  refine ⟨m, ?_, ?_⟩
  · rw [List.mem_reverse]
    exact List.mem_filterMap.mpr ⟨x, hx, hs⟩
  · simp [hwf x m hs]

theorem reconciledB_of_collect_nil (store : String → Option FileMeta) :
    ∀ t : List NotesTreeNode, collectFileIds t = [] →
      noEmptyFileIds t = true → reconciledB store t = true
  | [], _, _ => by simp [reconciledB]
  | .node d c :: rest, hcol, hne => by
    rw [collectFileIds] at hcol
    rcases List.append_eq_nil.mp hcol with ⟨hleft, hr⟩
    rcases List.append_eq_nil.mp hleft with ⟨hhead, hc⟩
    rw [noEmptyFileIds] at hne
    simp only [Bool.and_eq_true] at hne
    obtain ⟨⟨hd, hnec⟩, hner⟩ := hne
    rw [reconciledB]
    simp only [Bool.and_eq_true]
    refine ⟨⟨?_, reconciledB_of_collect_nil store c hc hnec⟩,
      reconciledB_of_collect_nil store rest hr hner⟩
    unfold reconciledData
    rcases hfid : d.fileId with _ | fid
    · simp [hfid]
    · simp only [hfid] at hhead hd ⊢
      simp only [decide_eq_true_eq, ne_eq, Option.some.injEq] at hd
      by_cases hty : d.type = NodeType.file
      · exfalso
        rw [if_pos ⟨hty, hd⟩] at hhead
        simp at hhead
      · simp [hty]

theorem reconciledB_removeDeletedFiles (store mf : String → Option FileMeta)
    (del : List String)
    (hsm : ∀ x m, mf x = some m → store x = some m) :
    ∀ u : List NotesTreeNode, namesMatch mf u = true →
      noEmptyFileIds u = true →
      (∀ x ∈ collectFileIds u, x ∉ del → (mf x).isSome = true) →
      reconciledB store ((removeDeletedFiles del u).1) = true
  | [], _, _, _ => by simp [removeDeletedFiles, reconciledB]
  | .node d c :: rest, hnm, hne, hsub => by
    rw [namesMatch] at hnm
    rw [noEmptyFileIds] at hne
    simp only [Bool.and_eq_true] at hnm hne
    obtain ⟨⟨hnmd, hnmc⟩, hnmr⟩ := hnm
    obtain ⟨⟨hned, hnec⟩, hner⟩ := hne
    have hsubc : ∀ x ∈ collectFileIds c, x ∉ del → (mf x).isSome = true := by
      intro x hx hnd
      refine hsub x ?_ hnd
      rw [collectFileIds]
      exact List.mem_append_left _ (List.mem_append_right _ hx)
    have hsubr : ∀ x ∈ collectFileIds rest, x ∉ del → (mf x).isSome = true := by
      intro x hx hnd
      refine hsub x ?_ hnd
      rw [collectFileIds]
      exact List.mem_append_right _ hx
    simp only [removeDeletedFiles]
    by_cases hcond : d.type = NodeType.file ∧ jsTruthyStr d.fileId = true ∧
        del.contains (d.fileId.getD "") = true
    · rw [if_pos hcond]
      exact reconciledB_removeDeletedFiles store mf del hsm rest hnmr hner hsubr
    · rw [if_neg hcond]
      simp only [reconciledB, Bool.and_eq_true]
      refine ⟨⟨?_, reconciledB_removeDeletedFiles store mf del hsm c hnmc hnec hsubc⟩,
        reconciledB_removeDeletedFiles store mf del hsm rest hnmr hner hsubr⟩
      unfold reconciledData
      rcases hfid : d.fileId with _ | fid
      · simp [hfid]
      · simp only [hfid] at hned ⊢
        simp only [decide_eq_true_eq, ne_eq, Option.some.injEq] at hned
        by_cases hty : d.type = NodeType.file
        · have htruthy : jsTruthyStr d.fileId = true := by
            rw [hfid]
            simp [jsTruthyStr, hned]
          have hnotdel : ¬ del.contains fid = true := by
            intro hcontra
            exact hcond ⟨hty, htruthy, by rw [hfid]; simpa using hcontra⟩
          have hmem : fid ∈ collectFileIds (NotesTreeNode.node d c :: rest) := by
            rw [collectFileIds, hfid]
            simp [hty, hned]
          have hsome := hsub fid hmem (by
            intro hmemdel
            exact hnotdel (List.contains_iff_exists_mem_beq.mpr
              ⟨fid, hmemdel, by simp⟩))
          rcases hm : mf fid with _ | m
          · rw [hm] at hsome
            simp at hsome
          · have hstore := hsm fid m hm
            rw [hstore]
            unfold namesMatchData at hnmd
            simp only [hfid] at hnmd
            rw [if_pos ⟨hty, hned⟩, hm] at hnmd
            simp only [decide_eq_true_eq] at hnmd
            simp [hty, hnmd]
        · simp [hty]

theorem reconciledB_syncFile (store : String → Option FileMeta)
    (hwf : ∀ i m, store i = some m → m.id = i) (now : String)
    (t : List NotesTreeNode) (hne : noEmptyFileIds t = true) :
    reconciledB store ((syncFile store now t).1) = true := by
  simp only [syncFile]
  by_cases hids : collectFileIds t = []
  · rw [if_pos hids]
    exact reconciledB_of_collect_nil store t hids hne
  · rw [if_neg hids]
    have hsm : ∀ x m, metadataFind ((collectFileIds t).filterMap store) x = some m →
        store x = some m :=
      fun x m h => metadataFind_store store hwf (collectFileIds t) x m h
    have hnm := namesMatch_updateFileNames
      (metadataFind ((collectFileIds t).filterMap store)) now t
    have hneu : noEmptyFileIds ((updateFileNames
        (metadataFind ((collectFileIds t).filterMap store)) now t).1) = true := by
      rw [noEmpty_updateFileNames]
      exact hne
    have hsub : ∀ x ∈ collectFileIds ((updateFileNames
        (metadataFind ((collectFileIds t).filterMap store)) now t).1),
        x ∉ (collectFileIds t).filter
          (fun i => (metadataFind ((collectFileIds t).filterMap store) i).isNone) →
        (metadataFind ((collectFileIds t).filterMap store) x).isSome = true := by
      intro x hx hnd
      rw [collect_updateFileNames] at hx
      rcases hmx : metadataFind ((collectFileIds t).filterMap store) x with _ | m
      · exfalso
        exact hnd (List.mem_filter.mpr ⟨hx, by simp [hmx]⟩)
      · rfl
    by_cases hdel : (collectFileIds t).filter
        (fun i => (metadataFind ((collectFileIds t).filterMap store) i).isNone) ≠ []
    · rw [if_pos hdel]
      exact reconciledB_removeDeletedFiles store _ _ hsm _ hnm hneu hsub
    · rw [if_neg hdel]
      have := reconciledB_removeDeletedFiles store
        (metadataFind ((collectFileIds t).filterMap store)) [] hsm
        ((updateFileNames (metadataFind ((collectFileIds t).filterMap store)) now t).1)
        hnm hneu (by
          intro x hx hnd
          exact hsub x hx (by
            simp only [not_not] at hdel
            rw [hdel]
            exact List.not_mem_nil x))
      rwa [removeDeletedFiles_nil] at this

theorem syncFile_none_eq (store : String → Option FileMeta) (now : String)
    (t : List NotesTreeNode) (h : (syncFile store now t).2 = none) :
    (syncFile store now t).1 = t := by
  simp only [syncFile] at h ⊢
  by_cases hids : collectFileIds t = []
  · rw [if_pos hids]
  · rw [if_neg hids] at h ⊢
    by_cases hdel : (collectFileIds t).filter
        (fun i => (metadataFind ((collectFileIds t).filterMap store) i).isNone) ≠ []
    · rw [if_pos hdel] at h ⊢
      by_cases hflag : ((updateFileNames
          (metadataFind ((collectFileIds t).filterMap store)) now t).2 ||
          (removeDeletedFiles ((collectFileIds t).filter
            (fun i => (metadataFind ((collectFileIds t).filterMap store) i).isNone))
            ((updateFileNames (metadataFind
              ((collectFileIds t).filterMap store)) now t).1)).2) = true
      · rw [if_pos hflag] at h
        simp at h
      · simp only [Bool.or_eq_true, not_or, Bool.not_eq_true] at hflag
        obtain ⟨h1, h2⟩ := hflag
        rw [removeDeletedFiles_no_change _ _ h2, updateFileNames_no_change _ _ _ h1]
    · rw [if_neg hdel] at h ⊢
      by_cases hflag : ((updateFileNames
          (metadataFind ((collectFileIds t).filterMap store)) now t).2 || false) = true
      · rw [if_pos hflag] at h
        simp at h
      · simp only [Bool.or_false, Bool.not_eq_true] at hflag
        rw [updateFileNames_no_change _ _ _ hflag]

theorem syncFile_save_shape (store : String → Option FileMeta) (now : String)
    (t : List NotesTreeNode) :
    (syncFile store now t).2 = none ∨
    (syncFile store now t).2 = some ((syncFile store now t).1) := by
  simp only [syncFile]
  by_cases hids : collectFileIds t = []
  · rw [if_pos hids]
    left
    rfl
  · rw [if_neg hids]
    set del := (collectFileIds t).filter
      (fun i => (metadataFind ((collectFileIds t).filterMap store) i).isNone) with hdel
    set r1 := updateFileNames
      (metadataFind ((collectFileIds t).filterMap store)) now t with hr1
    set r2 := if del ≠ [] then removeDeletedFiles del r1.1 else (r1.1, false) with hr2
    by_cases hflag : (r1.2 || r2.2) = true
    · rw [if_pos hflag]
      right
      rfl
    · rw [if_neg hflag]
      left
      rfl

theorem syncFile_some_eq (store : String → Option FileMeta) (now : String)
    (t t' : List NotesTreeNode) (h : (syncFile store now t).2 = some t') :
    t' = (syncFile store now t).1 := by
  rcases syncFile_save_shape store now t with hs | hs
  · rw [hs] at h
    exact absurd h (by simp)
  · rw [hs] at h
    exact (Option.some.injEq _ _ ▸ h).symm

theorem collect_resolvable_of_reconciled (store : String → Option FileMeta) :
    ∀ u : List NotesTreeNode, reconciledB store u = true →
      ∀ x ∈ collectFileIds u, ∃ m, store x = some m
  | [], _, x, hx => by simp [collectFileIds] at hx
  | .node d c :: rest, hrec, x, hx => by
    rw [reconciledB] at hrec
    simp only [Bool.and_eq_true] at hrec
    obtain ⟨⟨hd, hc⟩, hr⟩ := hrec
    rw [collectFileIds] at hx
    rcases List.mem_append.mp hx with hx1 | hx2
    · rcases List.mem_append.mp hx1 with hx0 | hxc
      · unfold reconciledData at hd
        rcases hfid : d.fileId with _ | fid
        · rw [hfid] at hx0
          simp at hx0
        · simp only [hfid] at hx0 hd
          by_cases hcond : d.type = NodeType.file ∧ fid ≠ ""
          · rw [if_pos hcond] at hx0
            simp only [List.mem_singleton] at hx0
            subst hx0
            rw [if_pos hcond.1] at hd
            rcases hm : store x with _ | m
            · rw [hm] at hd
              simp at hd
            · exact ⟨m, rfl⟩
          · rw [if_neg hcond] at hx0
            simp at hx0
      · exact collect_resolvable_of_reconciled store c hc x hxc
    · exact collect_resolvable_of_reconciled store rest hr x hx2

theorem namesMatch_of_reconciled (store mf : String → Option FileMeta)
    (hsm : ∀ x m, mf x = some m → store x = some m) :
    ∀ u : List NotesTreeNode, reconciledB store u = true → namesMatch mf u = true
  | [], _ => by simp [namesMatch]
  | .node d c :: rest, hrec => by
    rw [reconciledB] at hrec
    simp only [Bool.and_eq_true] at hrec
    obtain ⟨⟨hd, hc⟩, hr⟩ := hrec
    rw [namesMatch]
    simp only [Bool.and_eq_true]
    refine ⟨⟨?_, namesMatch_of_reconciled store mf hsm c hc⟩,
      namesMatch_of_reconciled store mf hsm rest hr⟩
    unfold namesMatchData
    unfold reconciledData at hd
    rcases hfid : d.fileId with _ | fid
    · simp [hfid]
    · simp only [hfid] at hd ⊢
      by_cases hcond : d.type = NodeType.file ∧ fid ≠ ""
      · rw [if_pos hcond]
        rcases hm : mf fid with _ | m
        · rfl
        · have hst := hsm fid m hm
          rw [if_pos hcond.1, hst] at hd
          exact hd
      · rw [if_neg hcond]

theorem syncFile_of_reconciled (store : String → Option FileMeta)
    (hwf : ∀ i m, store i = some m → m.id = i) (now : String)
    (u : List NotesTreeNode) (hrec : reconciledB store u = true) :
    syncFile store now u = (u, none) := by
  simp only [syncFile]
  by_cases hids : collectFileIds u = []
  · rw [if_pos hids]
  · rw [if_neg hids]
    have hdel : (collectFileIds u).filter
        (fun i => (metadataFind ((collectFileIds u).filterMap store) i).isNone) = [] := by
      rw [List.filter_eq_nil_iff]
      intro x hx
      rcases collect_resolvable_of_reconciled store u hrec x hx with ⟨m, hm⟩
      have hsome := metadataFind_isSome store hwf (collectFileIds u) x hx m hm
      rcases hmx : metadataFind ((collectFileIds u).filterMap store) x with _ | m2
      · rw [hmx] at hsome
        simp at hsome
      · simp [hmx]
    have hnm := namesMatch_of_reconciled store
      (metadataFind ((collectFileIds u).filterMap store))
      (fun x m h => metadataFind_store store hwf _ x m h) u hrec
    rw [updateFileNames_of_namesMatch _ now u hnm]
    rw [hdel]
    simp

theorem noEmpty_syncFile (store : String → Option FileMeta) (now : String)
    (t : List NotesTreeNode) (hne : noEmptyFileIds t = true) :
    noEmptyFileIds ((syncFile store now t).1) = true := by
  simp only [syncFile]
  by_cases hids : collectFileIds t = []
  · rw [if_pos hids]
    exact hne
  · rw [if_neg hids]
    by_cases hdel : (collectFileIds t).filter
        (fun i => (metadataFind ((collectFileIds t).filterMap store) i).isNone) ≠ []
    · rw [if_pos hdel]
      apply noEmpty_removeDeletedFiles
      rw [noEmpty_updateFileNames]
      exact hne
    · rw [if_neg hdel]
      show noEmptyFileIds ((updateFileNames
        (metadataFind ((collectFileIds t).filterMap store)) now t).1) = true
      rw [noEmpty_updateFileNames]
      exact hne

/-- Claim C4: for every persisted tree whose file ids are non-falsy and
every id-consistent metadata store, `getNotesTree` reconciles: in the
returned tree every file node carrying a `fileId` resolves in the store
(unresolvable file nodes were pruned) and carries the stored
`origin_name` as its `name`; moreover whenever the reconciliation did not
persist, the returned tree is exactly the stored tree (so any change is
persisted), and whatever is persisted is exactly the returned tree. -/
theorem c4_getNotesTree_reconciles (r : Option (List NotesTreeNode))
    (store : String → Option FileMeta) (now : String)
    (hwf : ∀ i m, store i = some m → m.id = i)
    (hne : noEmptyFileIds (r.getD []) = true) :
    reconciledB store (getNotesTree (.ok r) store now).1 = true ∧
    ((getNotesTree (.ok r) store now).2 = none →
      (getNotesTree (.ok r) store now).1 = r.getD []) ∧
    (∀ t', (getNotesTree (.ok r) store now).2 = some t' →
      t' = (getNotesTree (.ok r) store now).1) := by
  have hg : getNotesTree (.ok r) store now = syncFile store now (r.getD []) := rfl
  rw [hg]
  exact ⟨reconciledB_syncFile store hwf now _ hne,
    syncFile_none_eq store now _,
    fun t' => syncFile_some_eq store now _ t'⟩

/-- Witness for C4 at a concrete input: a folder holding one file with a
stale name and one file with a dangling id. -/
theorem c4_getNotesTree_reconciles_witness :
    reconciledB sampleStore
      (getNotesTree (.ok (some sampleSyncTree)) sampleStore "t9").1 = true ∧
    ((getNotesTree (.ok (some sampleSyncTree)) sampleStore "t9").2 = none →
      (getNotesTree (.ok (some sampleSyncTree)) sampleStore "t9").1
        = (some sampleSyncTree).getD []) ∧
    (∀ t', (getNotesTree (.ok (some sampleSyncTree)) sampleStore "t9").2 = some t' →
      t' = (getNotesTree (.ok (some sampleSyncTree)) sampleStore "t9").1) :=
  c4_getNotesTree_reconciles (some sampleSyncTree) sampleStore "t9"
    (by
      intro i m h
      simp only [sampleStore] at h
      by_cases hi : i = "x"
      · rw [if_pos hi] at h
        injection h with h2
        subst h2
        exact hi.symm
      · rw [if_neg hi] at h
        cases h)
    (by simp [noEmptyFileIds, sampleSyncTree, sampleFile, sampleGoneFile])

/-- Claim C6: `getNotesTree` is idempotent — reading back the tree a
first call returned (with the same, unchanged metadata store) makes the
second call's reconciliation find no name changes and no deleted files:
it returns the same tree and persists nothing. -/
theorem c6_getNotesTree_idempotent (r : Option (List NotesTreeNode))
    (store : String → Option FileMeta) (now1 now2 : String)
    (hwf : ∀ i m, store i = some m → m.id = i)
    (hne : noEmptyFileIds (r.getD []) = true) :
    getNotesTree (.ok (some ((getNotesTree (.ok r) store now1).1))) store now2
      = ((getNotesTree (.ok r) store now1).1, none) := by
  have hg : getNotesTree
      (.ok (some ((getNotesTree (.ok r) store now1).1))) store now2
      = syncFile store now2 ((getNotesTree (.ok r) store now1).1) := rfl
  rw [hg]
  apply syncFile_of_reconciled store hwf
  exact reconciledB_syncFile store hwf now1 _ hne

/-- Witness for C6 at the same concrete input as C4. -/
theorem c6_getNotesTree_idempotent_witness :
    getNotesTree
      (.ok (some ((getNotesTree (.ok (some sampleSyncTree)) sampleStore "t9").1)))
      sampleStore "u1"
      = ((getNotesTree (.ok (some sampleSyncTree)) sampleStore "t9").1, none) :=
  c6_getNotesTree_idempotent (some sampleSyncTree) sampleStore "t9" "u1"
    (by
      intro i m h
      simp only [sampleStore] at h
      by_cases hi : i = "x"
      · rw [if_pos hi] at h
        injection h with h2
        subst h2
        exact hi.symm
      · rw [if_neg hi] at h
        cases h)
    (by simp [noEmptyFileIds, sampleSyncTree, sampleFile, sampleGoneFile])
